import Mathlib

/-!
# Obsidian plugin manifest validator: embedding and properties

Shallow embedding of `validate-plugin-manifest/main.go` (the validation engine),
`validate-plugin-manifest/output.go` (the two reports) and
`validate-obsidian-plugin-manifest.go` (the legacy validator).

Go strings are modelled as Lean `String`s, that is as sequences of Unicode
scalar values (well-formed UTF-8, which is what `json.Unmarshal` hands to the
validator; a Go string holding bytes that are not UTF-8 has no counterpart
here).  `len` of a Go string is its number of bytes and is modelled by
`String.utf8ByteSize`; the library functions the validators call
(`strings.ToLower`, `strings.Contains`, `strings.HasSuffix`,
`regexp.MatchString`, `fmt.Sprintf` with `%d`) are modelled next to them.
-/

namespace unicode

/-- Go's `unicode.MaxASCII`. -/
def MaxASCII : Nat := 0x7F

/-- Go's `unicode.ToLower`: runes up to `MaxASCII` are handled in place
(`'A'..'Z'` are shifted by `'a' - 'A'`), every other rune is looked up in the
Unicode case tables, `To(LowerCase, r)`.  These tables belong to the Go
release, not to the repository, and are the parameter `caseTable`. -/
def ToLower (caseTable : Char → Char) (r : Char) : Char :=
  if r.toNat ≤ MaxASCII then
    if 'A'.toNat ≤ r.toNat ∧ r.toNat ≤ 'Z'.toNat then
      Char.ofNat (r.toNat + ('a'.toNat - 'A'.toNat))
    else r
  else caseTable r

end unicode

namespace strings

/-- Does `sub` occur in `s` as a block of consecutive characters. -/
def containsAt : List Char → List Char → Bool
  | [], sub => sub.isPrefixOf []
  | c :: cs, sub => sub.isPrefixOf (c :: cs) || containsAt cs sub

/-- Go's `strings.Contains(s, substr)`. -/
def Contains (s substr : String) : Bool := containsAt s.data substr.data

/-- Go's `strings.HasSuffix(s, suffix)`. -/
def HasSuffix (s suffix : String) : Bool := suffix.data.isSuffixOf s.data

/-- The first loop of Go's `strings.ToLower`: is every byte below
`utf8.RuneSelf` (0x80). -/
def isASCII (s : String) : Bool := s.data.all fun c => decide (c.toNat < 0x80)

/-- The `hasUpper` flag of Go's `strings.ToLower`. -/
def hasUpper (s : String) : Bool :=
  s.data.any fun c => decide ('A'.toNat ≤ c.toNat ∧ c.toNat ≤ 'Z'.toNat)

/-- The byte loop of the ASCII branch of `strings.ToLower`: `c += 'a' - 'A'`
for `'A' <= c <= 'Z'`, every other byte is copied. -/
def lowerASCII (c : Char) : Char :=
  if 'A'.toNat ≤ c.toNat ∧ c.toNat ≤ 'Z'.toNat then
    Char.ofNat (c.toNat + ('a'.toNat - 'A'.toNat))
  else c

/-- Go's `strings.ToLower`: an all-ASCII string is returned as it is when it
has no upper-case letter and with its upper-case letters shifted otherwise;
any other string goes through `Map(unicode.ToLower, s)`. -/
def ToLower (caseTable : Char → Char) (s : String) : String :=
  if isASCII s then
    if !hasUpper s then s else ⟨s.data.map lowerASCII⟩
  else ⟨s.data.map (unicode.ToLower caseTable)⟩

end strings

namespace regexp

/-- The fragment of Go's regular expressions the validator's patterns use:
character classes given by rune ranges, concatenation, alternation and
repetition. -/
inductive Regex where
  | none : Regex
  | eps : Regex
  | cls : List (Char × Char) → Regex
  | cat : Regex → Regex → Regex
  | alt : Regex → Regex → Regex
  | star : Regex → Regex

/-- One or more repetitions, `r+`. -/
def Regex.plus (r : Regex) : Regex := .cat r (.star r)

/-- A single literal rune. -/
def Regex.lit (c : Char) : Regex := .cls [(c, c)]

/-- Membership of a rune in a class: it lies in one of the ranges. -/
def inClass (ranges : List (Char × Char)) (c : Char) : Bool :=
  ranges.any fun lohi => decide (lohi.1.toNat ≤ c.toNat ∧ c.toNat ≤ lohi.2.toNat)

/-- Does the expression match the empty string. -/
def Regex.nullable : Regex → Bool
  | .none => false
  | .eps => true
  | .cls _ => false
  | .cat a b => a.nullable && b.nullable
  | .alt a b => a.nullable || b.nullable
  | .star _ => true

/-- What is left of the expression after reading the rune `c`. -/
def Regex.deriv : Regex → Char → Regex
  | .none, _ => .none
  | .eps, _ => .none
  | .cls rs, c => if inClass rs c then .eps else .none
  | .cat a b, c =>
    if a.nullable then .alt (.cat (a.deriv c) b) (b.deriv c) else .cat (a.deriv c) b
  | .alt a b, c => .alt (a.deriv c) (b.deriv c)
  | .star a, c => .cat (a.deriv c) (.star a)

/-- Does the expression match the whole of the input. -/
def Regex.fullMatch : Regex → List Char → Bool
  | r, [] => r.nullable
  | r, c :: cs => (r.deriv c).fullMatch cs

/-- Go's `(*Regexp).MatchString` for a pattern of the form `^body$` (compiled
without the multi-line flag, so `^` and `$` are the two ends of the text): the
text matches when the body matches all of it.  Every pattern of the validator
has this form and is represented by its body. -/
def MatchString (body : Regex) (s : String) : Bool := body.fullMatch s.data

end regexp

namespace fmt

/-- Expansion of the `%d` verbs of a format string, each taking the next
integer argument in decimal; every other character is copied. -/
def expand : List Char → List Nat → List Char
  | [], _ => []
  | '%' :: 'd' :: rest, a :: args => (Nat.repr a).data ++ expand rest args
  | c :: rest, args => c :: expand rest args

/-- Go's `fmt.Sprintf` for format strings whose only verbs are `%d`, applied to
non-negative integer arguments, one for each verb. -/
def Sprintf (format : String) (args : List Nat) : String := ⟨expand format.data args⟩

end fmt

/-- `idRegex = regexp.MustCompile("^[a-z0-9-_]+$")` (body). -/
def idRegex : regexp.Regex :=
  .plus (.cls [('a', 'z'), ('0', '9'), ('-', '-'), ('_', '_')])

/-- `emailRegex = regexp.MustCompile("^[a-zA-Z0-9_.+-]+@[a-zA-Z0-9-]+\.[a-zA-Z0-9-.]+$")`
(body). -/
def emailRegex : regexp.Regex :=
  .cat (.plus (.cls [('a', 'z'), ('A', 'Z'), ('0', '9'), ('_', '_'), ('.', '.'), ('+', '+'),
      ('-', '-')]))
    (.cat (.lit '@')
      (.cat (.plus (.cls [('a', 'z'), ('A', 'Z'), ('0', '9'), ('-', '-')]))
        (.cat (.lit '.')
          (.plus (.cls [('a', 'z'), ('A', 'Z'), ('0', '9'), ('-', '-'), ('.', '.')])))))

/-- `versionRegex = regexp.MustCompile("^[0-9.]+$")` (body). -/
def versionRegex : regexp.Regex := .plus (.cls [('0', '9'), ('.', '.')])

/-- Manifest represents an Obsidian plugin `manifest.json` structure. -/
structure Manifest where
  ID : String
  Name : String
  Description : String
  Author : String
  Version : String
  MinAppVersion : String
  IsDesktopOnly : Bool
  AuthorURL : String
  FundingURL : String

/-- ValidationResult stores validation errors and warnings. -/
structure ValidationResult where
  Errors : List String
  Warnings : List String
deriving DecidableEq, Repr

namespace ValidationResult

/-- AddError adds an error message to the validation result. -/
def AddError (vr : ValidationResult) (message : String) : ValidationResult :=
  { vr with Errors := vr.Errors ++ [message] }

/-- AddErrorf adds a formatted error message to the validation result. -/
def AddErrorf (vr : ValidationResult) (format : String) (args : List Nat) : ValidationResult :=
  { vr with Errors := vr.Errors ++ [fmt.Sprintf format args] }

/-- AddWarning adds a warning message to the validation result. -/
def AddWarning (vr : ValidationResult) (message : String) : ValidationResult :=
  { vr with Warnings := vr.Warnings ++ [message] }

/-- AddWarningf adds a formatted warning message to the validation result. -/
def AddWarningf (vr : ValidationResult) (format : String) (args : List Nat) :
    ValidationResult :=
  { vr with Warnings := vr.Warnings ++ [fmt.Sprintf format args] }

/-- IsValid returns true if there are no validation errors. -/
def IsValid (vr : ValidationResult) : Bool := vr.Errors.length == 0

end ValidationResult

/-- The constant `maxDescriptionLength` of `validateDescription`. -/
def maxDescriptionLength : Nat := 250

/-- validateID checks plugin ID rules. -/
def validateID (caseTable : Char → Char) (manifest : Manifest) (result : ValidationResult) :
    ValidationResult :=
  if manifest.ID = "" then
    result.AddError "Plugin ID is required"
  else
    let result :=
      if strings.Contains (strings.ToLower caseTable manifest.ID) "obsidian" then
        result.AddError "Plugin ID should not contain the word 'obsidian'"
      else result
    let result :=
      if strings.HasSuffix (strings.ToLower caseTable manifest.ID) "plugin" then
        result.AddError "Plugin ID should not end with 'plugin'"
      else result
    if !regexp.MatchString idRegex manifest.ID then
      result.AddError
        "Plugin ID must contain only lowercase alphanumeric characters, dashes, and underscores"
    else result

/-- validateName checks plugin name rules. -/
def validateName (caseTable : Char → Char) (manifest : Manifest) (result : ValidationResult) :
    ValidationResult :=
  if manifest.Name = "" then
    result.AddError "Plugin name is required"
  else
    let result :=
      if strings.Contains (strings.ToLower caseTable manifest.Name) "obsidian" then
        result.AddError "Plugin name should not contain the word 'Obsidian'"
      else result
    if strings.HasSuffix (strings.ToLower caseTable manifest.Name) "plugin" then
      result.AddError "Plugin name should not end with 'Plugin'"
    else result

/-- validateDescription checks description rules. -/
def validateDescription (caseTable : Char → Char) (manifest : Manifest)
    (result : ValidationResult) : ValidationResult :=
  if manifest.Description = "" then
    result.AddError "Description is required"
  else
    let result :=
      if strings.Contains (strings.ToLower caseTable manifest.Description) "obsidian" then
        result.AddError "Description should not contain the word 'Obsidian'"
      else result
    let result :=
      if strings.Contains (strings.ToLower caseTable manifest.Description) "this plugin" then
        result.AddWarning "Avoid phrases like 'this plugin' in the description"
      else result
    if manifest.Description.utf8ByteSize > maxDescriptionLength then
      result.AddErrorf "Description should be under %d characters (currently %d)"
        [maxDescriptionLength, manifest.Description.utf8ByteSize]
    else result

/-- validateAuthor checks author field rules. -/
def validateAuthor (manifest : Manifest) (result : ValidationResult) : ValidationResult :=
  if manifest.Author = "" then
    result.AddError "Author is required"
  else if regexp.MatchString emailRegex manifest.Author then
    result.AddWarning "Email addresses are discouraged in the author field"
  else result

/-- validateVersion checks version format rules. -/
def validateVersion (manifest : Manifest) (result : ValidationResult) : ValidationResult :=
  if manifest.Version = "" then
    result.AddError "Version is required"
  else if !regexp.MatchString versionRegex manifest.Version then
    result.AddError "Invalid version number format (should only contain numbers and dots)"
  else result

/-- validateURLs checks author and funding URL rules. -/
def validateURLs (manifest : Manifest) (result : ValidationResult) : ValidationResult :=
  let result :=
    if manifest.AuthorURL = "https://obsidian.md" then
      result.AddError "Author URL should not point to Obsidian website"
    else result
  if manifest.FundingURL ≠ "" ∧ manifest.FundingURL = "https://obsidian.md/pricing" then
    result.AddError "Funding URL should not point to Obsidian pricing"
  else result

/-- validateMinAppVersion checks minAppVersion rules. -/
def validateMinAppVersion (manifest : Manifest) (result : ValidationResult) :
    ValidationResult :=
  if manifest.MinAppVersion = "" then
    result.AddError "MinAppVersion is required"
  else if !regexp.MatchString versionRegex manifest.MinAppVersion then
    result.AddError "Invalid minAppVersion format (should only contain numbers and dots)"
  else result

/-- ValidateManifest checks the provided manifest against Obsidian community rules. -/
def ValidateManifest (caseTable : Char → Char) (manifest : Manifest) : ValidationResult :=
  let result : ValidationResult := { Errors := [], Warnings := [] }
  let result := validateID caseTable manifest result
  let result := validateName caseTable manifest result
  let result := validateDescription caseTable manifest result
  let result := validateAuthor manifest result
  let result := validateVersion manifest result
  let result := validateURLs manifest result
  validateMinAppVersion manifest result

/-! ## The test cases of `validator_test.go` -/

/-- TestCase defines a validation test case. -/
structure TestCase where
  name : String
  manifest : Manifest
  wantErrors : Nat
  wantWarnings : Nat

/-- The test case "valid manifest". -/
def getValidManifestTestCase : TestCase :=
  { name := "valid manifest",
    manifest :=
      { ID := "good-manifest", Name := "Good Manifest", Description := "A good manifest",
        Author := "The Author", Version := "1.0.0", MinAppVersion := "1.0.0",
        IsDesktopOnly := false, AuthorURL := "https://example.com/",
        FundingURL := "https://example.com/funding" },
    wantErrors := 0, wantWarnings := 0 }

/-- The test case "invalid manifest". -/
def getInvalidManifestTestCase : TestCase :=
  { name := "invalid manifest",
    manifest :=
      { ID := "bad-manifest-obsidian-plugin", Name := "Bad Obsidian Plugin",
        Description := "This plugin for Obsidian has a long description exceeding limits",
        Author := "author@example.com", Version := "1.0.0-beta", MinAppVersion := "1.0.0-final",
        IsDesktopOnly := false, AuthorURL := "https://obsidian.md",
        FundingURL := "https://obsidian.md/pricing" },
    wantErrors := 9, wantWarnings := 2 }

/-- The test case "missing required fields". -/
def getMissingRequiredFieldsTestCase : TestCase :=
  { name := "missing required fields",
    manifest :=
      { ID := "", Name := "", Version := "", Description := "", Author := "",
        MinAppVersion := "", IsDesktopOnly := false, AuthorURL := "", FundingURL := "" },
    wantErrors := 6, wantWarnings := 0 }

/-- The test case "warning only". -/
def getWarningOnlyTestCase : TestCase :=
  { name := "warning only",
    manifest :=
      { ID := "good-id", Name := "Good Name",
        Description := "This plugin has a description with this plugin phrase",
        Author := "contact@example.com", Version := "1.0.0", MinAppVersion := "1.0.0",
        IsDesktopOnly := false, AuthorURL := "https://example.com", FundingURL := "" },
    wantErrors := 0, wantWarnings := 2 }

/-! ## The legacy validator, `validate-obsidian-plugin-manifest.go`

Its `Manifest` and `ValidationResult` types are declared with the same fields as
those of `validate-plugin-manifest/main.go` and are shared here; its patterns
are compiled in place from the same three expressions. -/

namespace legacy

/-- The method `addError` of the legacy file: the message is
`fmt.Sprintf(format, args...)`. -/
def addError (vr : ValidationResult) (format : String) (args : List Nat) : ValidationResult :=
  { vr with Errors := vr.Errors ++ [fmt.Sprintf format args] }

/-- The method `addWarning` of the legacy file. -/
def addWarning (vr : ValidationResult) (format : String) (args : List Nat) :
    ValidationResult :=
  { vr with Warnings := vr.Warnings ++ [fmt.Sprintf format args] }

/-- The method `isValid` of the legacy file. -/
def isValid (vr : ValidationResult) : Bool := vr.Errors.length == 0

/-- The function `validateManifest` of the legacy file. -/
def validateManifest (caseTable : Char → Char) (manifest : Manifest) : ValidationResult :=
  let result : ValidationResult := { Errors := [], Warnings := [] }
  -- Validate ID
  let result :=
    if strings.Contains (strings.ToLower caseTable manifest.ID) "obsidian" then
      addError result "Plugin ID should not contain the word 'obsidian'" []
    else result
  let result :=
    if strings.HasSuffix (strings.ToLower caseTable manifest.ID) "plugin" then
      addError result "Plugin ID should not end with 'plugin'" []
    else result
  let result :=
    if !regexp.MatchString idRegex manifest.ID then
      addError result
        "Plugin ID must contain only lowercase alphanumeric characters and dashes" []
    else result
  -- Validate Name
  let result :=
    if strings.Contains (strings.ToLower caseTable manifest.Name) "obsidian" then
      addError result "Plugin name should not contain the word 'Obsidian'" []
    else result
  let result :=
    if strings.HasSuffix (strings.ToLower caseTable manifest.Name) "plugin" then
      addError result "Plugin name should not end with 'Plugin'" []
    else result
  -- Validate Description
  let result :=
    if strings.Contains (strings.ToLower caseTable manifest.Description) "obsidian" then
      addError result "Description should not contain the word 'Obsidian'" []
    else result
  let result :=
    if strings.Contains (strings.ToLower caseTable manifest.Description) "this plugin" then
      addWarning result "Avoid phrases like 'this plugin' in the description" []
    else result
  let result :=
    if manifest.Description.utf8ByteSize > 250 then
      addError result "Description should be under 250 characters (currently %d)"
        [manifest.Description.utf8ByteSize]
    else result
  -- Validate Author
  let result :=
    if regexp.MatchString emailRegex manifest.Author then
      addWarning result "Email addresses are discouraged in the author field" []
    else result
  -- Validate Version
  let result :=
    if !regexp.MatchString versionRegex manifest.Version then
      addError result "Invalid version number format (should only contain numbers and dots)" []
    else result
  -- Validate URLs
  let result :=
    if manifest.AuthorURL = "https://obsidian.md" then
      addError result "Author URL should not point to Obsidian website" []
    else result
  let result :=
    if manifest.FundingURL ≠ "" then
      if manifest.FundingURL = "https://obsidian.md/pricing" then
        addError result "Funding URL should not point to Obsidian pricing" []
      else result
    else result
  -- Validate MinAppVersion
  if manifest.MinAppVersion = "" then
    addError result "MinAppVersion is required" []
  else if !regexp.MatchString versionRegex manifest.MinAppVersion then
    addError result "Invalid minAppVersion format (should only contain numbers and dots)" []
  else result

end legacy

/-! ## Output, `validate-plugin-manifest/output.go`

An `io.Writer` is modelled by the text written to it so far; a function that
writes returns the writer afterwards. -/

namespace fmt

/-- An operand of a formatting call: an integer, or a string (an `error` stands
for its message). -/
inductive Arg where
  | int (n : Nat)
  | str (s : String)

/-- Expansion of the verbs `%d` (next operand an integer, in decimal) and `%s`,
`%v` (next operand a string, as it is); every other character is copied. -/
def expandArgs : List Char → List Arg → List Char
  | [], _ => []
  | '%' :: 'd' :: rest, .int n :: args => (Nat.repr n).data ++ expandArgs rest args
  | '%' :: 's' :: rest, .str s :: args => s.data ++ expandArgs rest args
  | '%' :: 'v' :: rest, .str s :: args => s.data ++ expandArgs rest args
  | c :: rest, args => c :: expandArgs rest args

/-- Go's `fmt.Fprintf(writer, format, args...)`, for the verbs above with one
operand of the right kind for each. -/
def Fprintf (writer : String) (format : String) (args : List Arg) : String :=
  writer ++ String.mk (expandArgs format.data args)

/-- Go's `fmt.Fprintln(writer, a)` with one string operand: the operand and a
newline. -/
def Fprintln (writer : String) (a : String) : String := writer ++ a ++ "\n"

end fmt

/-- OutputFormat defines the format for validation results. -/
abbrev OutputFormat := String

/-- TextOutput is the standard human-readable text output. -/
def TextOutput : OutputFormat := "text"

/-- JSONOutput produces machine-readable JSON output. -/
def JSONOutput : OutputFormat := "json"

/-- OutputResult represents the structure used for JSON output. -/
structure OutputResult where
  Valid : Bool
  Errors : List String
  Warnings : List String
deriving DecidableEq, Repr

namespace json

/-- The constant `hex = "0123456789abcdef"` of `encoding/json`, indexed. -/
def hex (n : Nat) : Char := "0123456789abcdef".data.getD n '0'

/-- The table `htmlSafeSet` of `encoding/json`: the ASCII characters written as
they are, that is all from space to DEL but the double quote, `&`, `<`, `>` and
the backslash. -/
def htmlSafe (c : Char) : Bool :=
  decide (0x20 ≤ c.toNat ∧ c.toNat < 0x80) &&
    !(c == Char.ofNat 0x22 || c == '&' || c == '<' || c == '>' || c == Char.ofNat 0x5C)

/-- What the string encoder of `encoding/json` (with HTML escaping, as `Marshal`
uses it) writes for one rune: a safe ASCII character as it is; the backslash
and the double quote behind a backslash; backspace, form feed, newline,
carriage return and tab as `\b`, `\f`, `\n`, `\r`, `\t`; any other ASCII
character as `\u00` and two hex digits; U+2028 and U+2029 as a `\u` escape of their
four hex digits; every other rune as it is.  (Releases before Go 1.22 write
backspace and form feed as `\u0008` and `\u000c`; the decoder reads both
spellings alike.) -/
def escapeRune (c : Char) : List Char :=
  if c.toNat < 0x80 then
    if htmlSafe c then [c]
    else if c = Char.ofNat 0x5C ∨ c = Char.ofNat 0x22 then [Char.ofNat 0x5C, c]
    else if c = Char.ofNat 0x08 then [Char.ofNat 0x5C, 'b']
    else if c = Char.ofNat 0x0C then [Char.ofNat 0x5C, 'f']
    else if c = Char.ofNat 0x0A then [Char.ofNat 0x5C, 'n']
    else if c = Char.ofNat 0x0D then [Char.ofNat 0x5C, 'r']
    else if c = Char.ofNat 0x09 then [Char.ofNat 0x5C, 't']
    else [Char.ofNat 0x5C, 'u', '0', '0', hex (c.toNat / 16), hex (c.toNat % 16)]
  else if c = Char.ofNat 0x2028 ∨ c = Char.ofNat 0x2029 then
    [Char.ofNat 0x5C, 'u', '2', '0', '2', hex (c.toNat % 16)]
  else [c]

/-- A string as a JSON string literal: the escaped runes between double
quotes. -/
def quote (s : String) : List Char :=
  Char.ofNat 0x22 :: (s.data.flatMap escapeRune ++ [Char.ofNat 0x22])

/-- The JSON values the fields of `OutputResult` encode to: a boolean or an
array of strings. -/
inductive Value where
  | bool (b : Bool)
  | strings (xs : List String)
deriving DecidableEq, Repr

/-- The members of the JSON object of an `OutputResult`, in field order, after
the struct tags `json:"valid"`, `json:"errors,omitempty"` and
`json:"warnings,omitempty"`: a field tagged `omitempty` is left out when its
slice has length 0. -/
def members (o : OutputResult) : List (String × Value) :=
  [("valid", Value.bool o.Valid)] ++
  (if o.Errors.length = 0 then [] else [("errors", Value.strings o.Errors)]) ++
  (if o.Warnings.length = 0 then [] else [("warnings", Value.strings o.Warnings)])

/-- A member's value as `MarshalIndent(v, "", "  ")` lays it out inside the
top-level object: an array has one element per line, four spaces in. -/
def renderValue : Value → List Char
  | .bool true => "true".data
  | .bool false => "false".data
  | .strings [] => "[]".data
  | .strings (x :: xs) =>
    "[\n    ".data ++ quote x ++ (xs.flatMap fun y => ",\n    ".data ++ quote y) ++ "\n  ]".data

/-- A member: its quoted name, a colon and a space, its value. -/
def renderMember (kv : String × Value) : List Char :=
  quote kv.1 ++ ": ".data ++ renderValue kv.2

/-- The object as `MarshalIndent(v, "", "  ")` lays it out: one member per line,
two spaces in. -/
def renderObject : List (String × Value) → List Char
  | [] => "\x7b\x7d".data
  | kv :: kvs =>
    "\x7b\n  ".data ++ renderMember kv ++
      (kvs.flatMap fun kv' => ",\n  ".data ++ renderMember kv') ++ "\n\x7d".data

/-- Go's `json.MarshalIndent(output, "", "  ")` for an `OutputResult`; encoding a
boolean and two slices of strings never fails. -/
def MarshalIndent (o : OutputResult) : Except String String :=
  .ok (String.mk (renderObject (members o)))

/-- Run a step function over a list, stopping at the first failure. -/
def run {σ α : Type} (step : σ → α → Option σ) : σ → List α → Option σ
  | s, [] => some s
  | s, a :: as =>
    match step s a with
    | none => none
    | some s' => run step s' as

/-- The tokens of a JSON text, as far as `OutputResult` needs them. -/
inductive Token where
  | lbrace | rbrace | lbrack | rbrack | colon | comma
  | str (s : List Char)
  | bool (b : Bool)
deriving DecidableEq, Repr

/-- Where the scanner is: between tokens, inside a string literal, after a
backslash, inside a `\u` escape (with the hex digits read so far), or inside
`true` or `false` (with the characters still expected). -/
inductive Scan where
  | between
  | inString (acc : List Char)
  | escape (acc : List Char)
  | unicode (acc : List Char) (digits : List Nat)
  | literal (rest : List Char) (b : Bool)
deriving DecidableEq, Repr

/-- The value of a hex digit. -/
def hexVal (c : Char) : Option Nat :=
  if '0'.toNat ≤ c.toNat ∧ c.toNat ≤ '9'.toNat then some (c.toNat - '0'.toNat)
  else if 'a'.toNat ≤ c.toNat ∧ c.toNat ≤ 'f'.toNat then some (c.toNat - 'a'.toNat + 10)
  else if 'A'.toNat ≤ c.toNat ∧ c.toNat ≤ 'F'.toNat then some (c.toNat - 'A'.toNat + 10)
  else none

/-- One character of scanning.  `none` is a text the decoder rejects (a control
character inside a string, an unknown escape, a stray character) or one outside
the fragment modelled here (numbers, `null`, surrogate escapes). -/
def scanStep (st : Scan × List Token) (c : Char) : Option (Scan × List Token) :=
  match st with
  | (.between, toks) =>
    if c = ' ' ∨ c = Char.ofNat 0x09 ∨ c = Char.ofNat 0x0D ∨ c = Char.ofNat 0x0A then
      some (.between, toks)
    else if c = Char.ofNat 0x7B then some (.between, toks ++ [.lbrace])
    else if c = Char.ofNat 0x7D then some (.between, toks ++ [.rbrace])
    else if c = '[' then some (.between, toks ++ [.lbrack])
    else if c = ']' then some (.between, toks ++ [.rbrack])
    else if c = ':' then some (.between, toks ++ [.colon])
    else if c = ',' then some (.between, toks ++ [.comma])
    else if c = Char.ofNat 0x22 then some (.inString [], toks)
    else if c = 't' then some (.literal ['r', 'u', 'e'] true, toks)
    else if c = 'f' then some (.literal ['a', 'l', 's', 'e'] false, toks)
    else none
  | (.inString acc, toks) =>
    if c = Char.ofNat 0x22 then some (.between, toks ++ [.str acc])
    else if c = Char.ofNat 0x5C then some (.escape acc, toks)
    else if c.toNat < 0x20 then none
    else some (.inString (acc ++ [c]), toks)
  | (.escape acc, toks) =>
    if c = Char.ofNat 0x22 ∨ c = Char.ofNat 0x5C ∨ c = '/' then
      some (.inString (acc ++ [c]), toks)
    else if c = 'b' then some (.inString (acc ++ [Char.ofNat 0x08]), toks)
    else if c = 'f' then some (.inString (acc ++ [Char.ofNat 0x0C]), toks)
    else if c = 'n' then some (.inString (acc ++ [Char.ofNat 0x0A]), toks)
    else if c = 'r' then some (.inString (acc ++ [Char.ofNat 0x0D]), toks)
    else if c = 't' then some (.inString (acc ++ [Char.ofNat 0x09]), toks)
    else if c = 'u' then some (.unicode acc [], toks)
    else none
  | (.unicode acc digits, toks) =>
    match hexVal c with
    | none => none
    | some v =>
      if digits.length < 3 then some (.unicode acc (digits ++ [v]), toks)
      else
        let code := (digits ++ [v]).foldl (fun n d => 16 * n + d) 0
        if 0xD800 ≤ code ∧ code < 0xE000 then none
        else some (.inString (acc ++ [Char.ofNat code]), toks)
  | (.literal rest b, toks) =>
    match rest with
    | [] => none
    | e :: rest' =>
      if c = e then
        if rest' = [] then some (.between, toks ++ [.bool b]) else some (.literal rest' b, toks)
      else none

/-- Where the decoder is in an object for `OutputResult`. -/
inductive Decode where
  | start
  | key (first : Bool)
  | colon (k : List Char)
  | value (k : List Char)
  | element (k : List Char) (xs : List String) (first : Bool)
  | separator (k : List Char) (xs : List String)
  | next
  | done
deriving DecidableEq, Repr

/-- Store a decoded array of strings in the field the key names. -/
def setField (o : OutputResult) (k : List Char) (xs : List String) : Option OutputResult :=
  if k = "errors".data then some { o with Errors := xs }
  else if k = "warnings".data then some { o with Warnings := xs }
  else none

/-- One token of decoding into an `OutputResult`.  `none` is a text the decoder
rejects or one outside the fragment modelled here (a key other than `valid`,
`errors`, `warnings` spelled so, a value of another type). -/
def decodeStep (st : Decode × OutputResult) (t : Token) : Option (Decode × OutputResult) :=
  match st, t with
  | (.start, o), .lbrace => some (.key true, o)
  | (.key _, o), .str k => some (.colon k, o)
  | (.key true, o), .rbrace => some (.done, o)
  | (.colon k, o), .colon => some (.value k, o)
  | (.value k, o), .bool b =>
    if k = "valid".data then some (.next, { o with Valid := b }) else none
  | (.value k, o), .lbrack =>
    if k = "errors".data ∨ k = "warnings".data then some (.element k [] true, o) else none
  | (.element k xs _, o), .str s => some (.separator k (xs ++ [String.mk s]), o)
  | (.element k xs true, o), .rbrack => (setField o k xs).map fun o' => (.next, o')
  | (.separator k xs, o), .comma => some (.element k xs false, o)
  | (.separator k xs, o), .rbrack => (setField o k xs).map fun o' => (.next, o')
  | (.next, o), .comma => some (.key false, o)
  | (.next, o), .rbrace => some (.done, o)
  | _, _ => none

/-- Go's `json.Unmarshal(data, &output)` for `var output OutputResult`: the text
is scanned into tokens and the tokens are decoded into a zero `OutputResult`;
`none` when either fails or stops early. -/
def Unmarshal (data : String) : Option OutputResult :=
  match run scanStep (.between, []) data.data with
  | some (.between, toks) =>
    match run decodeStep (.start, { Valid := false, Errors := [], Warnings := [] }) toks with
    | some (.done, o) => some o
    | _ => none
  | _ => none

/-- The tokens a rendered value is made of. -/
def tokensOfValue : Value → List Token
  | .bool b => [.bool b]
  | .strings [] => [.lbrack, .rbrack]
  | .strings (x :: xs) =>
    [.lbrack, .str x.data] ++ (xs.flatMap fun y => [.comma, .str y.data]) ++ [.rbrack]

/-- The tokens a rendered member is made of. -/
def tokensOfMember (kv : String × Value) : List Token :=
  [.str kv.1.data, .colon] ++ tokensOfValue kv.2

/-- The tokens a rendered object is made of. -/
def tokensOfObject : List (String × Value) → List Token
  | [] => [.lbrace, .rbrace]
  | kv :: kvs =>
    [.lbrace] ++ tokensOfMember kv ++ (kvs.flatMap fun kv' => .comma :: tokensOfMember kv') ++
      [.rbrace]

end json

/-- printTextResults displays human-readable validation results. -/
def printTextResults (writer : String) (result : ValidationResult) : String :=
  let writer :=
    if result.Errors.length > 0 then
      let writer := fmt.Fprintln writer "\n❌ Errors:"
      result.Errors.foldl (fun writer err => fmt.Fprintf writer "  • %s\n" [.str err]) writer
    else writer
  let writer :=
    if result.Warnings.length > 0 then
      let writer := fmt.Fprintln writer "\n⚠️  Warnings:"
      result.Warnings.foldl
        (fun writer warning => fmt.Fprintf writer "  • %s\n" [.str warning]) writer
    else writer
  if result.IsValid then
    let writer := fmt.Fprintln writer "\n✅ Manifest validation passed!"
    if result.Warnings.length > 0 then
      fmt.Fprintf writer "   (but has %d warning(s) to consider)\n" [.int result.Warnings.length]
    else writer
  else
    fmt.Fprintf writer "\n❌ Validation failed with %d error(s) and %d warning(s)\n"
      [.int result.Errors.length, .int result.Warnings.length]

/-- The value of the variable `output` of `printJSONResults`. -/
def printJSONResults.output (result : ValidationResult) : OutputResult :=
  { Valid := result.IsValid, Errors := result.Errors, Warnings := result.Warnings }

/-- printJSONResults displays JSON-formatted validation results. -/
def printJSONResults (writer : String) (result : ValidationResult) : String :=
  match json.MarshalIndent (printJSONResults.output result) with
  | .error err =>
    fmt.Fprintf writer
      "\x7b\"valid\":false,\"errors\":[\"Failed to marshal JSON output: %v\"]\x7d" [.str err]
  | .ok jsonData => writer ++ jsonData ++ "\n"

/-- PrintResultsTo displays validation results to the given writer in the
specified format. -/
def PrintResultsTo (writer : String) (result : ValidationResult) (format : OutputFormat) :
    String :=
  if format = JSONOutput then printJSONResults writer result
  else printTextResults writer result

/-! ## Regular expressions: matching by derivatives is matching -/

namespace regexp

/-- The strings an expression denotes. -/
inductive Regex.Matches : Regex → List Char → Prop
  | eps : Matches .eps []
  | cls {rs : List (Char × Char)} {c : Char} : inClass rs c = true → Matches (.cls rs) [c]
  | cat {a b : Regex} {x y : List Char} :
      Matches a x → Matches b y → Matches (.cat a b) (x ++ y)
  | altL {a b : Regex} {x : List Char} : Matches a x → Matches (.alt a b) x
  | altR {a b : Regex} {x : List Char} : Matches b x → Matches (.alt a b) x
  | starNil {a : Regex} : Matches (.star a) []
  | starCons {a : Regex} {x y : List Char} :
      Matches a x → Matches (.star a) y → Matches (.star a) (x ++ y)

theorem Regex.nullable_of_matches_nil {r : Regex} {s : List Char} (h : r.Matches s) :
    s = [] → r.nullable = true := by
  induction h with
  | eps => intro _; rfl
  | cls _ => intro h; cases h
  | cat _ _ iha ihb =>
    intro h
    obtain ⟨hx, hy⟩ := List.append_eq_nil.mp h
    simp [Regex.nullable, iha hx, ihb hy]
  | altL _ ih => intro h; simp [Regex.nullable, ih h]
  | altR _ ih => intro h; simp [Regex.nullable, ih h]
  | starNil => intro _; rfl
  | starCons _ _ _ _ => intro _; rfl

theorem Regex.matches_nil_of_nullable : ∀ {r : Regex}, r.nullable = true → r.Matches []
  | .none, h => by simp [Regex.nullable] at h
  | .eps, _ => .eps
  | .cls _, h => by simp [Regex.nullable] at h
  | .cat a b, h => by
    simp only [Regex.nullable, Bool.and_eq_true] at h
    exact .cat (x := []) (y := []) (matches_nil_of_nullable h.1) (matches_nil_of_nullable h.2)
  | .alt a b, h => by
    simp only [Regex.nullable, Bool.or_eq_true] at h
    rcases h with h | h
    · exact .altL (matches_nil_of_nullable h)
    · exact .altR (matches_nil_of_nullable h)
  | .star _, _ => .starNil

theorem Regex.matches_cons_of_deriv {c : Char} :
    ∀ {r : Regex} {s : List Char}, (r.deriv c).Matches s → r.Matches (c :: s)
  | .none, _, h => by cases h
  | .eps, _, h => by cases h
  | .cls rs, s, h => by
    by_cases hc : inClass rs c = true
    · simp only [Regex.deriv, hc, if_true] at h
      cases h
      exact .cls hc
    · simp only [Regex.deriv, hc] at h
      cases h
  | .cat a b, s, h => by
    by_cases hn : a.nullable = true
    · simp only [Regex.deriv, hn, if_true] at h
      cases h with
      | altL h =>
        cases h with
        | cat hx hy => exact .cat (x := c :: _) (matches_cons_of_deriv hx) hy
      | altR h =>
        exact .cat (x := []) (matches_nil_of_nullable hn) (matches_cons_of_deriv h)
    · simp only [Regex.deriv, hn] at h
      cases h with
      | cat hx hy => exact .cat (x := c :: _) (matches_cons_of_deriv hx) hy
  | .alt a b, s, h => by
    simp only [Regex.deriv] at h
    cases h with
    | altL h => exact .altL (matches_cons_of_deriv h)
    | altR h => exact .altR (matches_cons_of_deriv h)
  | .star a, s, h => by
    simp only [Regex.deriv] at h
    cases h with
    | cat hx hy => exact .starCons (x := c :: _) (matches_cons_of_deriv hx) hy

theorem Regex.deriv_of_matches_cons {r : Regex} {t : List Char} (h : r.Matches t) :
    ∀ (c : Char) (s : List Char), t = c :: s → (r.deriv c).Matches s := by
  induction h with
  | eps => intro c s h; cases h
  | cls hc =>
    intro c s h
    cases h
    simp only [Regex.deriv, hc, if_true]
    exact .eps
  | @cat a b x y hx hy ihx ihy =>
    intro c s h
    cases x with
    | nil =>
      have hn := nullable_of_matches_nil hx rfl
      simp only [Regex.deriv, hn, if_true]
      exact .altR (ihy c s h)
    | cons d x =>
      have hd : d = c := (List.cons.inj h).1
      have hs : x ++ y = s := (List.cons.inj h).2
      subst hd hs
      have h1 : (Regex.cat (a.deriv d) b).Matches (x ++ y) := .cat (ihx d x rfl) hy
      by_cases hn : a.nullable = true
      · simp only [Regex.deriv, hn, if_true]
        exact .altL h1
      · simp only [Regex.deriv, hn]
        exact h1
  | altL _ ih => intro c s h; exact .altL (ih c s h)
  | altR _ ih => intro c s h; exact .altR (ih c s h)
  | starNil => intro c s h; cases h
  | @starCons a x y hx hy ihx ihy =>
    intro c s h
    cases x with
    | nil => exact ihy c s h
    | cons d x =>
      have hd : d = c := (List.cons.inj h).1
      have hs : x ++ y = s := (List.cons.inj h).2
      subst hd hs
      exact .cat (ihx d x rfl) hy

/-- Matching by derivatives decides membership in the expression's language. -/
theorem Regex.fullMatch_iff : ∀ (s : List Char) (r : Regex),
    r.fullMatch s = true ↔ r.Matches s
  | [], r => ⟨matches_nil_of_nullable, fun h => nullable_of_matches_nil h rfl⟩
  | c :: s, r => by
    rw [Regex.fullMatch, fullMatch_iff s (r.deriv c)]
    exact ⟨matches_cons_of_deriv, fun h => deriv_of_matches_cons h c s rfl⟩

theorem Regex.star_cls_of_forall (rs : List (Char × Char)) :
    ∀ s : List Char, (∀ c ∈ s, inClass rs c = true) → (Regex.star (.cls rs)).Matches s
  | [], _ => .starNil
  | c :: s, h =>
    .starCons (x := [c]) (.cls (h c (List.mem_cons_self c s)))
      (star_cls_of_forall rs s fun d hd => h d (List.mem_cons_of_mem c hd))

theorem Regex.forall_of_star_cls {r : Regex} {s : List Char} (h : r.Matches s) :
    ∀ rs, r = .star (.cls rs) → ∀ c ∈ s, inClass rs c = true := by
  induction h with
  | eps => intro rs h; cases h
  | cls _ => intro rs h; cases h
  | cat _ _ _ _ => intro rs h; cases h
  | altL _ _ => intro rs h; cases h
  | altR _ _ => intro rs h; cases h
  | starNil => intro rs _ c hc; cases hc
  | starCons hx _ _ ihy =>
    intro rs h c hc
    cases h
    rcases List.mem_append.mp hc with hc | hc
    · cases hx with
      | cls hd =>
        rw [List.mem_singleton.mp hc]
        exact hd
    · exact ihy rs rfl c hc

/-- A class repeated one or more times matches exactly the non-empty texts all
of whose runes are in the class. -/
theorem fullMatch_plus_cls (rs : List (Char × Char)) (s : List Char) :
    (Regex.plus (.cls rs)).fullMatch s = true ↔ s ≠ [] ∧ ∀ c ∈ s, inClass rs c = true := by
  rw [Regex.fullMatch_iff]
  constructor
  · intro h
    cases h with
    | cat hx hy =>
      cases hx with
      | cls hc =>
        refine ⟨by simp, fun d hd => ?_⟩
        rcases List.mem_cons.mp hd with hd | hd
        · rw [hd]; exact hc
        · exact Regex.forall_of_star_cls hy rs rfl d hd
  · rintro ⟨hne, hall⟩
    cases s with
    | nil => exact absurd rfl hne
    | cons c s =>
      exact .cat (x := [c]) (.cls (hall c (List.mem_cons_self c s)))
        (Regex.star_cls_of_forall rs s fun d hd => hall d (List.mem_cons_of_mem c hd))

end regexp

/-! ## Strings -/

namespace strings

theorem containsAt_iff (sub : List Char) : ∀ s : List Char, containsAt s sub = true ↔ sub <:+: s
  | [] => by
    simp only [containsAt, List.isPrefixOf_iff_prefix, List.prefix_nil, List.infix_nil]
  | c :: cs => by
    simp only [containsAt, Bool.or_eq_true, List.isPrefixOf_iff_prefix, containsAt_iff sub cs,
      List.infix_cons_iff]

/-- `strings.Contains` holds exactly when the second string is a block of
consecutive characters of the first. -/
theorem Contains_iff (s sub : String) : Contains s sub = true ↔ sub.data <:+: s.data :=
  containsAt_iff sub.data s.data

/-- `strings.HasSuffix` holds exactly when the first string ends with the
second. -/
theorem HasSuffix_iff (s suffix : String) : HasSuffix s suffix = true ↔ suffix.data <:+ s.data := by
  simp [HasSuffix]

theorem lowerASCII_eq_unicode (caseTable : Char → Char) (c : Char) (h : c.toNat < 0x80) :
    lowerASCII c = unicode.ToLower caseTable c := by
  have h1 : c.toNat ≤ unicode.MaxASCII := by simp only [unicode.MaxASCII]; omega
  simp only [lowerASCII, unicode.ToLower, h1, if_true]

/-- In every branch `strings.ToLower` is the rune-by-rune image of the text
under `unicode.ToLower`. -/
theorem ToLower_data (caseTable : Char → Char) (s : String) :
    (ToLower caseTable s).data = s.data.map (unicode.ToLower caseTable) := by
  unfold ToLower
  by_cases ha : isASCII s = true
  · have hall : ∀ c ∈ s.data, c.toNat < 0x80 := by
      simpa [isASCII] using ha
    simp only [ha, if_true]
    by_cases hu : hasUpper s = true
    · simp only [hu, Bool.not_true, Bool.false_eq_true, if_false]
      exact List.map_congr_left fun c hc => lowerASCII_eq_unicode caseTable c (hall c hc)
    · have hno : ∀ c ∈ s.data, ¬ ('A'.toNat ≤ c.toNat ∧ c.toNat ≤ 'Z'.toNat) := by
        simpa [hasUpper] using hu
      simp only [hu, Bool.not_false, if_true]
      have hid : s.data.map (unicode.ToLower caseTable) = s.data.map id :=
        List.map_congr_left fun c hc => by
          rw [← lowerASCII_eq_unicode caseTable c (hall c hc)]
          simp only [lowerASCII, hno c hc, if_false, id]
      rw [hid, List.map_id]
  · simp only [ha, Bool.false_eq_true, if_false]

/-- On an all-ASCII text `strings.ToLower` never consults the case tables. -/
theorem ToLower_of_isASCII (caseTable caseTable' : Char → Char) (s : String)
    (h : isASCII s = true) : ToLower caseTable s = ToLower caseTable' s := by
  simp only [ToLower, h, if_true]

end strings

theorem String.eq_empty_iff_data (s : String) : s = "" ↔ s.data = [] := by
  constructor
  · intro h; rw [h]
  · intro h
    cases s
    simp only at h
    rw [h]

/-! ## Each validator only appends to the result it is given -/

section Frame

variable (caseTable : Char → Char) (m : Manifest) (r : ValidationResult)

theorem validateID_frame :
    validateID caseTable m r =
      ⟨r.Errors ++ (validateID caseTable m ⟨[], []⟩).Errors,
       r.Warnings ++ (validateID caseTable m ⟨[], []⟩).Warnings⟩ := by
  simp only [validateID, ValidationResult.AddError]
  split_ifs <;> simp

theorem validateName_frame :
    validateName caseTable m r =
      ⟨r.Errors ++ (validateName caseTable m ⟨[], []⟩).Errors,
       r.Warnings ++ (validateName caseTable m ⟨[], []⟩).Warnings⟩ := by
  simp only [validateName, ValidationResult.AddError]
  split_ifs <;> simp

theorem validateDescription_frame :
    validateDescription caseTable m r =
      ⟨r.Errors ++ (validateDescription caseTable m ⟨[], []⟩).Errors,
       r.Warnings ++ (validateDescription caseTable m ⟨[], []⟩).Warnings⟩ := by
  simp only [validateDescription, ValidationResult.AddError, ValidationResult.AddErrorf,
    ValidationResult.AddWarning]
  split_ifs <;> simp

theorem validateAuthor_frame :
    validateAuthor m r =
      ⟨r.Errors ++ (validateAuthor m ⟨[], []⟩).Errors,
       r.Warnings ++ (validateAuthor m ⟨[], []⟩).Warnings⟩ := by
  simp only [validateAuthor, ValidationResult.AddError, ValidationResult.AddWarning]
  split_ifs <;> simp

theorem validateVersion_frame :
    validateVersion m r =
      ⟨r.Errors ++ (validateVersion m ⟨[], []⟩).Errors,
       r.Warnings ++ (validateVersion m ⟨[], []⟩).Warnings⟩ := by
  simp only [validateVersion, ValidationResult.AddError]
  split_ifs <;> simp

theorem validateURLs_frame :
    validateURLs m r =
      ⟨r.Errors ++ (validateURLs m ⟨[], []⟩).Errors,
       r.Warnings ++ (validateURLs m ⟨[], []⟩).Warnings⟩ := by
  simp only [validateURLs, ValidationResult.AddError]
  split_ifs <;> simp

theorem validateMinAppVersion_frame :
    validateMinAppVersion m r =
      ⟨r.Errors ++ (validateMinAppVersion m ⟨[], []⟩).Errors,
       r.Warnings ++ (validateMinAppVersion m ⟨[], []⟩).Warnings⟩ := by
  simp only [validateMinAppVersion, ValidationResult.AddError]
  split_ifs <;> simp

end Frame

/-! ## What each validator adds to an empty result -/

section Findings

variable (caseTable : Char → Char) (m : Manifest)

theorem validateID_errors :
    (validateID caseTable m ⟨[], []⟩).Errors =
      if m.ID = "" then ["Plugin ID is required"]
      else
        (if strings.Contains (strings.ToLower caseTable m.ID) "obsidian" = true then
            ["Plugin ID should not contain the word 'obsidian'"] else []) ++
        (if strings.HasSuffix (strings.ToLower caseTable m.ID) "plugin" = true then
            ["Plugin ID should not end with 'plugin'"] else []) ++
        (if regexp.MatchString idRegex m.ID = true then []
          else ["Plugin ID must contain only lowercase alphanumeric characters, dashes, and underscores"]) := by
  simp only [validateID, ValidationResult.AddError]
  split_ifs <;> simp_all

theorem validateID_warnings : (validateID caseTable m ⟨[], []⟩).Warnings = [] := by
  simp only [validateID, ValidationResult.AddError]
  split_ifs <;> rfl

theorem validateName_errors :
    (validateName caseTable m ⟨[], []⟩).Errors =
      if m.Name = "" then ["Plugin name is required"]
      else
        (if strings.Contains (strings.ToLower caseTable m.Name) "obsidian" = true then
            ["Plugin name should not contain the word 'Obsidian'"] else []) ++
        (if strings.HasSuffix (strings.ToLower caseTable m.Name) "plugin" = true then
            ["Plugin name should not end with 'Plugin'"] else []) := by
  simp only [validateName, ValidationResult.AddError]
  split_ifs <;> simp_all

theorem validateName_warnings : (validateName caseTable m ⟨[], []⟩).Warnings = [] := by
  simp only [validateName, ValidationResult.AddError]
  split_ifs <;> rfl

theorem validateDescription_errors :
    (validateDescription caseTable m ⟨[], []⟩).Errors =
      if m.Description = "" then ["Description is required"]
      else
        (if strings.Contains (strings.ToLower caseTable m.Description) "obsidian" = true then
            ["Description should not contain the word 'Obsidian'"] else []) ++
        (if m.Description.utf8ByteSize > 250 then
            [fmt.Sprintf "Description should be under %d characters (currently %d)"
              [250, m.Description.utf8ByteSize]] else []) := by
  simp only [validateDescription, ValidationResult.AddError, ValidationResult.AddErrorf,
    ValidationResult.AddWarning, maxDescriptionLength]
  split_ifs <;> simp_all

theorem validateDescription_warnings :
    (validateDescription caseTable m ⟨[], []⟩).Warnings =
      if m.Description = "" then []
      else if strings.Contains (strings.ToLower caseTable m.Description) "this plugin" = true then
        ["Avoid phrases like 'this plugin' in the description"]
      else [] := by
  simp only [validateDescription, ValidationResult.AddError, ValidationResult.AddErrorf,
    ValidationResult.AddWarning]
  split_ifs <;> simp_all

theorem validateAuthor_errors :
    (validateAuthor m ⟨[], []⟩).Errors = if m.Author = "" then ["Author is required"] else [] := by
  simp only [validateAuthor, ValidationResult.AddError, ValidationResult.AddWarning]
  split_ifs <;> simp_all

theorem validateAuthor_warnings :
    (validateAuthor m ⟨[], []⟩).Warnings =
      if m.Author = "" then []
      else if regexp.MatchString emailRegex m.Author = true then
        ["Email addresses are discouraged in the author field"]
      else [] := by
  simp only [validateAuthor, ValidationResult.AddError, ValidationResult.AddWarning]
  split_ifs <;> simp_all

theorem validateVersion_errors :
    (validateVersion m ⟨[], []⟩).Errors =
      if m.Version = "" then ["Version is required"]
      else if regexp.MatchString versionRegex m.Version = true then []
      else ["Invalid version number format (should only contain numbers and dots)"] := by
  simp only [validateVersion, ValidationResult.AddError]
  split_ifs <;> simp_all

theorem validateVersion_warnings : (validateVersion m ⟨[], []⟩).Warnings = [] := by
  simp only [validateVersion, ValidationResult.AddError]
  split_ifs <;> rfl

theorem validateURLs_errors :
    (validateURLs m ⟨[], []⟩).Errors =
      (if m.AuthorURL = "https://obsidian.md" then
          ["Author URL should not point to Obsidian website"] else []) ++
      (if m.FundingURL = "https://obsidian.md/pricing" then
          ["Funding URL should not point to Obsidian pricing"] else []) := by
  simp only [validateURLs, ValidationResult.AddError]
  split_ifs <;> simp_all

theorem validateURLs_warnings : (validateURLs m ⟨[], []⟩).Warnings = [] := by
  simp only [validateURLs, ValidationResult.AddError]
  split_ifs <;> rfl

theorem validateMinAppVersion_errors :
    (validateMinAppVersion m ⟨[], []⟩).Errors =
      if m.MinAppVersion = "" then ["MinAppVersion is required"]
      else if regexp.MatchString versionRegex m.MinAppVersion = true then []
      else ["Invalid minAppVersion format (should only contain numbers and dots)"] := by
  simp only [validateMinAppVersion, ValidationResult.AddError]
  split_ifs <;> simp_all

theorem validateMinAppVersion_warnings : (validateMinAppVersion m ⟨[], []⟩).Warnings = [] := by
  simp only [validateMinAppVersion, ValidationResult.AddError]
  split_ifs <;> rfl

/-- The errors of a run are the errors of the seven validators, one after the
other. -/
theorem ValidateManifest_errors :
    (ValidateManifest caseTable m).Errors =
      (validateID caseTable m ⟨[], []⟩).Errors ++ (validateName caseTable m ⟨[], []⟩).Errors ++
      (validateDescription caseTable m ⟨[], []⟩).Errors ++ (validateAuthor m ⟨[], []⟩).Errors ++
      (validateVersion m ⟨[], []⟩).Errors ++ (validateURLs m ⟨[], []⟩).Errors ++
      (validateMinAppVersion m ⟨[], []⟩).Errors := by
  simp only [ValidateManifest]
  rw [validateMinAppVersion_frame, validateURLs_frame, validateVersion_frame,
    validateAuthor_frame, validateDescription_frame, validateName_frame]

/-- The warnings of a run are the warnings of the seven validators, one after
the other. -/
theorem ValidateManifest_warnings :
    (ValidateManifest caseTable m).Warnings =
      (validateID caseTable m ⟨[], []⟩).Warnings ++ (validateName caseTable m ⟨[], []⟩).Warnings ++
      (validateDescription caseTable m ⟨[], []⟩).Warnings ++ (validateAuthor m ⟨[], []⟩).Warnings ++
      (validateVersion m ⟨[], []⟩).Warnings ++ (validateURLs m ⟨[], []⟩).Warnings ++
      (validateMinAppVersion m ⟨[], []⟩).Warnings := by
  simp only [ValidateManifest]
  rw [validateMinAppVersion_frame, validateURLs_frame, validateVersion_frame,
    validateAuthor_frame, validateDescription_frame, validateName_frame]

end Findings

/-! ## The patterns -/

theorem char_range_self_iff (c d : Char) : (d.toNat ≤ c.toNat ∧ c.toNat ≤ d.toNat) ↔ c = d := by
  constructor
  · intro h
    exact Char.ext (UInt32.ext (Nat.le_antisymm h.2 h.1))
  · intro h
    rw [h]
    exact ⟨Nat.le_refl _, Nat.le_refl _⟩

/-- The pattern `^[a-z0-9-_]+$` matches the non-empty texts made of lower-case
letters, digits, dashes and underscores only. -/
theorem idRegex_match_iff (s : String) :
    regexp.MatchString idRegex s = true ↔
      s ≠ "" ∧ ∀ c ∈ s.data, ('a' ≤ c ∧ c ≤ 'z') ∨ ('0' ≤ c ∧ c ≤ '9') ∨ c = '-' ∨ c = '_' := by
  unfold regexp.MatchString idRegex
  rw [regexp.fullMatch_plus_cls, Ne, Ne, String.eq_empty_iff_data]
  refine and_congr Iff.rfl (forall₂_congr fun c _ => ?_)
  simp only [regexp.inClass, List.any_cons, List.any_nil, Bool.or_false, Bool.or_eq_true,
    decide_eq_true_eq, char_range_self_iff]
  exact Iff.rfl

/-- The pattern `^[0-9.]+$` matches the non-empty texts made of digits and dots
only. -/
theorem versionRegex_match_iff (s : String) :
    regexp.MatchString versionRegex s = true ↔
      s ≠ "" ∧ ∀ c ∈ s.data, ('0' ≤ c ∧ c ≤ '9') ∨ c = '.' := by
  unfold regexp.MatchString versionRegex
  rw [regexp.fullMatch_plus_cls, Ne, Ne, String.eq_empty_iff_data]
  refine and_congr Iff.rfl (forall₂_congr fun c _ => ?_)
  simp only [regexp.inClass, List.any_cons, List.any_nil, Bool.or_false, Bool.or_eq_true,
    decide_eq_true_eq, char_range_self_iff]
  exact Iff.rfl

/-! ## When a validator finds no error -/

section NoError

variable (caseTable : Char → Char) (m : Manifest)

theorem validateID_errors_nil :
    (validateID caseTable m ⟨[], []⟩).Errors = [] ↔
      m.ID ≠ "" ∧
      (∀ c ∈ m.ID.data, ('a' ≤ c ∧ c ≤ 'z') ∨ ('0' ≤ c ∧ c ≤ '9') ∨ c = '-' ∨ c = '_') ∧
      strings.Contains (strings.ToLower caseTable m.ID) "obsidian" = false ∧
      strings.HasSuffix (strings.ToLower caseTable m.ID) "plugin" = false := by
  have hre := idRegex_match_iff m.ID
  rw [validateID_errors]
  by_cases h0 : m.ID = ""
  · simp [h0]
  · simp only [h0, if_false, List.append_eq_nil, ne_eq, not_false_eq_true, true_and]
    simp only [h0, ne_eq, not_false_eq_true, true_and] at hre
    rw [← hre]
    split_ifs <;> simp_all

theorem validateName_errors_nil :
    (validateName caseTable m ⟨[], []⟩).Errors = [] ↔
      m.Name ≠ "" ∧
      strings.Contains (strings.ToLower caseTable m.Name) "obsidian" = false ∧
      strings.HasSuffix (strings.ToLower caseTable m.Name) "plugin" = false := by
  rw [validateName_errors]
  split_ifs <;> simp_all

theorem validateDescription_errors_nil :
    (validateDescription caseTable m ⟨[], []⟩).Errors = [] ↔
      m.Description ≠ "" ∧
      strings.Contains (strings.ToLower caseTable m.Description) "obsidian" = false ∧
      m.Description.utf8ByteSize ≤ 250 := by
  rw [validateDescription_errors]
  split_ifs <;> simp_all

theorem validateAuthor_errors_nil :
    (validateAuthor m ⟨[], []⟩).Errors = [] ↔ m.Author ≠ "" := by
  rw [validateAuthor_errors]
  split_ifs <;> simp_all

theorem validateVersion_errors_nil :
    (validateVersion m ⟨[], []⟩).Errors = [] ↔
      m.Version ≠ "" ∧ ∀ c ∈ m.Version.data, ('0' ≤ c ∧ c ≤ '9') ∨ c = '.' := by
  have hre := versionRegex_match_iff m.Version
  rw [validateVersion_errors]
  by_cases h0 : m.Version = ""
  · simp [h0]
  · simp only [h0, ne_eq, not_false_eq_true, true_and] at hre
    simp only [h0, if_false, ne_eq, not_false_eq_true, true_and]
    rw [← hre]
    split_ifs <;> simp_all

theorem validateURLs_errors_nil :
    (validateURLs m ⟨[], []⟩).Errors = [] ↔
      m.AuthorURL ≠ "https://obsidian.md" ∧ m.FundingURL ≠ "https://obsidian.md/pricing" := by
  rw [validateURLs_errors]
  split_ifs <;> simp_all

theorem validateMinAppVersion_errors_nil :
    (validateMinAppVersion m ⟨[], []⟩).Errors = [] ↔
      m.MinAppVersion ≠ "" ∧ ∀ c ∈ m.MinAppVersion.data, ('0' ≤ c ∧ c ≤ '9') ∨ c = '.' := by
  have hre := versionRegex_match_iff m.MinAppVersion
  rw [validateMinAppVersion_errors]
  by_cases h0 : m.MinAppVersion = ""
  · simp [h0]
  · simp only [h0, ne_eq, not_false_eq_true, true_and] at hre
    simp only [h0, if_false, ne_eq, not_false_eq_true, true_and]
    rw [← hre]
    split_ifs <;> simp_all

end NoError

/-- A manifest whose three case-folded fields are all-ASCII is validated without
the case tables being consulted. -/
theorem ValidateManifest_of_isASCII (caseTable caseTable' : Char → Char) (m : Manifest)
    (hid : strings.isASCII m.ID = true) (hname : strings.isASCII m.Name = true)
    (hdesc : strings.isASCII m.Description = true) :
    ValidateManifest caseTable m = ValidateManifest caseTable' m := by
  simp only [ValidateManifest, validateID, validateName, validateDescription,
    strings.ToLower_of_isASCII caseTable caseTable' m.ID hid,
    strings.ToLower_of_isASCII caseTable caseTable' m.Name hname,
    strings.ToLower_of_isASCII caseTable caseTable' m.Description hdesc]

/-! ## The claims -/

/-- C1: a manifest is valid exactly when its ID is non-empty, made of `a-z`,
`0-9`, `-`, `_` only, and in lower case neither contains "obsidian" nor ends
with "plugin"; its name is non-empty and in lower case neither contains
"obsidian" nor ends with "plugin"; its description is non-empty, in lower case
does not contain "obsidian", and is at most 250 bytes long; its author is
non-empty; its version and minAppVersion are non-empty and made of digits and
dots only; its author URL is not "https://obsidian.md" and its funding URL is
not "https://obsidian.md/pricing".  Being valid is having an empty error list. -/
theorem C1_valid_iff_policy (caseTable : Char → Char) (m : Manifest) :
    ((ValidateManifest caseTable m).IsValid = true ↔
      (m.ID ≠ "" ∧
        (∀ c ∈ m.ID.data, ('a' ≤ c ∧ c ≤ 'z') ∨ ('0' ≤ c ∧ c ≤ '9') ∨ c = '-' ∨ c = '_') ∧
        strings.Contains (strings.ToLower caseTable m.ID) "obsidian" = false ∧
        strings.HasSuffix (strings.ToLower caseTable m.ID) "plugin" = false) ∧
      (m.Name ≠ "" ∧
        strings.Contains (strings.ToLower caseTable m.Name) "obsidian" = false ∧
        strings.HasSuffix (strings.ToLower caseTable m.Name) "plugin" = false) ∧
      (m.Description ≠ "" ∧
        strings.Contains (strings.ToLower caseTable m.Description) "obsidian" = false ∧
        m.Description.utf8ByteSize ≤ 250) ∧
      m.Author ≠ "" ∧
      (m.Version ≠ "" ∧ ∀ c ∈ m.Version.data, ('0' ≤ c ∧ c ≤ '9') ∨ c = '.') ∧
      (m.MinAppVersion ≠ "" ∧ ∀ c ∈ m.MinAppVersion.data, ('0' ≤ c ∧ c ≤ '9') ∨ c = '.') ∧
      m.AuthorURL ≠ "https://obsidian.md" ∧
      m.FundingURL ≠ "https://obsidian.md/pricing") ∧
    ((ValidateManifest caseTable m).IsValid = true ↔
      (ValidateManifest caseTable m).Errors = []) := by
  have hvalid : (ValidateManifest caseTable m).IsValid = true ↔
      (ValidateManifest caseTable m).Errors = [] := by
    simp only [ValidationResult.IsValid, beq_iff_eq, List.length_eq_zero]
  refine ⟨?_, hvalid⟩
  rw [hvalid, ValidateManifest_errors]
  simp only [List.append_eq_nil, validateID_errors_nil, validateName_errors_nil,
    validateDescription_errors_nil, validateAuthor_errors_nil, validateVersion_errors_nil,
    validateURLs_errors_nil, validateMinAppVersion_errors_nil]
  tauto

/-- C2: a validator whose own field is empty appends the field's "is required"
error to the result it is given and nothing else: no other error, no
warning. -/
theorem C2_empty_field_one_required_error (caseTable : Char → Char) (m : Manifest)
    (r : ValidationResult) :
    (m.ID = "" →
      (validateID caseTable m r).Errors = r.Errors ++ ["Plugin ID is required"] ∧
      (validateID caseTable m r).Warnings = r.Warnings) ∧
    (m.Name = "" →
      (validateName caseTable m r).Errors = r.Errors ++ ["Plugin name is required"] ∧
      (validateName caseTable m r).Warnings = r.Warnings) ∧
    (m.Description = "" →
      (validateDescription caseTable m r).Errors = r.Errors ++ ["Description is required"] ∧
      (validateDescription caseTable m r).Warnings = r.Warnings) ∧
    (m.Author = "" →
      (validateAuthor m r).Errors = r.Errors ++ ["Author is required"] ∧
      (validateAuthor m r).Warnings = r.Warnings) ∧
    (m.Version = "" →
      (validateVersion m r).Errors = r.Errors ++ ["Version is required"] ∧
      (validateVersion m r).Warnings = r.Warnings) ∧
    (m.MinAppVersion = "" →
      (validateMinAppVersion m r).Errors = r.Errors ++ ["MinAppVersion is required"] ∧
      (validateMinAppVersion m r).Warnings = r.Warnings) := by
  refine ⟨fun h => ?_, fun h => ?_, fun h => ?_, fun h => ?_, fun h => ?_, fun h => ?_⟩
  · simp only [validateID, h, if_true, ValidationResult.AddError, and_self]
  · simp only [validateName, h, if_true, ValidationResult.AddError, and_self]
  · simp only [validateDescription, h, if_true, ValidationResult.AddError, and_self]
  · simp only [validateAuthor, h, if_true, ValidationResult.AddError, and_self]
  · simp only [validateVersion, h, if_true, ValidationResult.AddError, and_self]
  · simp only [validateMinAppVersion, h, if_true, ValidationResult.AddError, and_self]

/-- C2 at the test case with every required field empty, starting from a
result that already holds one error and one warning. -/
theorem C2_empty_field_one_required_error_witness :
    (getMissingRequiredFieldsTestCase.manifest.ID = "" ∧
      getMissingRequiredFieldsTestCase.manifest.Name = "" ∧
      getMissingRequiredFieldsTestCase.manifest.Description = "" ∧
      getMissingRequiredFieldsTestCase.manifest.Author = "" ∧
      getMissingRequiredFieldsTestCase.manifest.Version = "" ∧
      getMissingRequiredFieldsTestCase.manifest.MinAppVersion = "") ∧
    (validateID id getMissingRequiredFieldsTestCase.manifest ⟨["e"], ["w"]⟩).Errors =
      ["e", "Plugin ID is required"] ∧
    (validateName id getMissingRequiredFieldsTestCase.manifest ⟨["e"], ["w"]⟩).Errors =
      ["e", "Plugin name is required"] ∧
    (validateDescription id getMissingRequiredFieldsTestCase.manifest ⟨["e"], ["w"]⟩).Errors =
      ["e", "Description is required"] ∧
    (validateAuthor getMissingRequiredFieldsTestCase.manifest ⟨["e"], ["w"]⟩).Errors =
      ["e", "Author is required"] ∧
    (validateVersion getMissingRequiredFieldsTestCase.manifest ⟨["e"], ["w"]⟩).Errors =
      ["e", "Version is required"] ∧
    (validateMinAppVersion getMissingRequiredFieldsTestCase.manifest ⟨["e"], ["w"]⟩).Errors =
      ["e", "MinAppVersion is required"] :=
  have h := C2_empty_field_one_required_error id getMissingRequiredFieldsTestCase.manifest
    ⟨["e"], ["w"]⟩
  ⟨⟨rfl, rfl, rfl, rfl, rfl, rfl⟩, (h.1 rfl).1, (h.2.1 rfl).1, (h.2.2.1 rfl).1,
    (h.2.2.2.1 rfl).1, (h.2.2.2.2.1 rfl).1, (h.2.2.2.2.2 rfl).1⟩

/-- C3: the errors of a run are the errors the seven validators find when each
is run alone from an empty result, in the order id, name, description, author,
version, URLs, minAppVersion, and likewise the warnings; and what a validator
finds is fixed by its own field (its two fields for the URLs), whatever the
rest of the record holds. -/
theorem C3_findings_concatenate_per_field (caseTable : Char → Char) (m : Manifest) :
    ((ValidateManifest caseTable m).Errors =
      (validateID caseTable m ⟨[], []⟩).Errors ++ (validateName caseTable m ⟨[], []⟩).Errors ++
      (validateDescription caseTable m ⟨[], []⟩).Errors ++ (validateAuthor m ⟨[], []⟩).Errors ++
      (validateVersion m ⟨[], []⟩).Errors ++ (validateURLs m ⟨[], []⟩).Errors ++
      (validateMinAppVersion m ⟨[], []⟩).Errors) ∧
    ((ValidateManifest caseTable m).Warnings =
      (validateID caseTable m ⟨[], []⟩).Warnings ++ (validateName caseTable m ⟨[], []⟩).Warnings ++
      (validateDescription caseTable m ⟨[], []⟩).Warnings ++ (validateAuthor m ⟨[], []⟩).Warnings ++
      (validateVersion m ⟨[], []⟩).Warnings ++ (validateURLs m ⟨[], []⟩).Warnings ++
      (validateMinAppVersion m ⟨[], []⟩).Warnings) ∧
    (∀ m' : Manifest, m'.ID = m.ID →
      validateID caseTable m' ⟨[], []⟩ = validateID caseTable m ⟨[], []⟩) ∧
    (∀ m' : Manifest, m'.Name = m.Name →
      validateName caseTable m' ⟨[], []⟩ = validateName caseTable m ⟨[], []⟩) ∧
    (∀ m' : Manifest, m'.Description = m.Description →
      validateDescription caseTable m' ⟨[], []⟩ = validateDescription caseTable m ⟨[], []⟩) ∧
    (∀ m' : Manifest, m'.Author = m.Author →
      validateAuthor m' ⟨[], []⟩ = validateAuthor m ⟨[], []⟩) ∧
    (∀ m' : Manifest, m'.Version = m.Version →
      validateVersion m' ⟨[], []⟩ = validateVersion m ⟨[], []⟩) ∧
    (∀ m' : Manifest, m'.AuthorURL = m.AuthorURL → m'.FundingURL = m.FundingURL →
      validateURLs m' ⟨[], []⟩ = validateURLs m ⟨[], []⟩) ∧
    (∀ m' : Manifest, m'.MinAppVersion = m.MinAppVersion →
      validateMinAppVersion m' ⟨[], []⟩ = validateMinAppVersion m ⟨[], []⟩) := by
  refine ⟨ValidateManifest_errors caseTable m, ValidateManifest_warnings caseTable m,
    fun m' h => ?_, fun m' h => ?_, fun m' h => ?_, fun m' h => ?_, fun m' h => ?_,
    fun m' h h' => ?_, fun m' h => ?_⟩
  · simp only [validateID, h]
  · simp only [validateName, h]
  · simp only [validateDescription, h]
  · simp only [validateAuthor, h]
  · simp only [validateVersion, h]
  · simp only [validateURLs, h, h']
  · simp only [validateMinAppVersion, h]

/-- C3 at the invalid test case: its nine errors and two warnings split as
2 + 2 + 1 + 0 + 1 + 2 + 1 and 0 + 0 + 1 + 1 + 0 + 0 + 0, and the valid test
case given the same ID has the same ID findings. -/
theorem C3_findings_concatenate_per_field_witness :
    (ValidateManifest id getInvalidManifestTestCase.manifest).Errors =
      ["Plugin ID should not contain the word 'obsidian'",
        "Plugin ID should not end with 'plugin'"] ++
      ["Plugin name should not contain the word 'Obsidian'",
        "Plugin name should not end with 'Plugin'"] ++
      ["Description should not contain the word 'Obsidian'"] ++ [] ++
      ["Invalid version number format (should only contain numbers and dots)"] ++
      ["Author URL should not point to Obsidian website",
        "Funding URL should not point to Obsidian pricing"] ++
      ["Invalid minAppVersion format (should only contain numbers and dots)"] ∧
    validateID id
        { getValidManifestTestCase.manifest with ID := "bad-manifest-obsidian-plugin" } ⟨[], []⟩ =
      ⟨["Plugin ID should not contain the word 'obsidian'",
        "Plugin ID should not end with 'plugin'"], []⟩ := by
  have h := C3_findings_concatenate_per_field id getInvalidManifestTestCase.manifest
  refine ⟨h.1.trans (by decide), ?_⟩
  exact (h.2.2.1 { getValidManifestTestCase.manifest with ID := "bad-manifest-obsidian-plugin" }
    rfl).trans (by decide)

/-- C4: the invalid test case of `validator_test.go`, with either value of
isDesktopOnly, yields exactly 9 errors and exactly 2 warnings. -/
theorem C4_invalid_manifest_nine_errors_two_warnings (caseTable : Char → Char) (b : Bool) :
    (ValidateManifest caseTable
        { getInvalidManifestTestCase.manifest with IsDesktopOnly := b }).Errors.length = 9 ∧
    (ValidateManifest caseTable
        { getInvalidManifestTestCase.manifest with IsDesktopOnly := b }).Warnings.length = 2 := by
  cases b
  · rw [ValidateManifest_of_isASCII caseTable id _ (by decide) (by decide) (by decide)]
    decide
  · rw [ValidateManifest_of_isASCII caseTable id _ (by decide) (by decide) (by decide)]
    decide

/-- C5: when the six required fields and the two URLs are empty, the run yields
the six "required" errors, in the order id, name, description, author, version,
minAppVersion, and no warning. -/
theorem C5_all_empty_six_required_errors (caseTable : Char → Char) (m : Manifest)
    (hid : m.ID = "") (hname : m.Name = "") (hdesc : m.Description = "")
    (hauthor : m.Author = "") (hversion : m.Version = "") (hmin : m.MinAppVersion = "")
    (hauthorURL : m.AuthorURL = "") (hfundingURL : m.FundingURL = "") :
    (ValidateManifest caseTable m).Errors =
      ["Plugin ID is required", "Plugin name is required", "Description is required",
        "Author is required", "Version is required", "MinAppVersion is required"] ∧
    (ValidateManifest caseTable m).Errors.length = 6 ∧
    (ValidateManifest caseTable m).Warnings = [] := by
  have herr : (ValidateManifest caseTable m).Errors =
      ["Plugin ID is required", "Plugin name is required", "Description is required",
        "Author is required", "Version is required", "MinAppVersion is required"] := by
    rw [ValidateManifest_errors, validateID_errors, validateName_errors,
      validateDescription_errors, validateAuthor_errors, validateVersion_errors,
      validateURLs_errors, validateMinAppVersion_errors]
    simp only [hid, hname, hdesc, hauthor, hversion, hmin, hauthorURL, hfundingURL, if_true]
    decide
  refine ⟨herr, by rw [herr]; rfl, ?_⟩
  rw [ValidateManifest_warnings, validateID_warnings, validateName_warnings,
    validateDescription_warnings, validateAuthor_warnings, validateVersion_warnings,
    validateURLs_warnings, validateMinAppVersion_warnings]
  simp only [hdesc, hauthor, if_true, List.append_nil]

/-- C5 at the missing-required-fields test case. -/
theorem C5_all_empty_six_required_errors_witness :
    (ValidateManifest id getMissingRequiredFieldsTestCase.manifest).Errors =
      ["Plugin ID is required", "Plugin name is required", "Description is required",
        "Author is required", "Version is required", "MinAppVersion is required"] ∧
    (ValidateManifest id getMissingRequiredFieldsTestCase.manifest).Errors.length =
      getMissingRequiredFieldsTestCase.wantErrors ∧
    (ValidateManifest id getMissingRequiredFieldsTestCase.manifest).Warnings = [] :=
  C5_all_empty_six_required_errors id getMissingRequiredFieldsTestCase.manifest
    rfl rfl rfl rfl rfl rfl rfl rfl

theorem contains_this_plugin_empty (caseTable : Char → Char) :
    strings.Contains (strings.ToLower caseTable "") "this plugin" = false := rfl

theorem emailRegex_empty : regexp.MatchString emailRegex "" = false := rfl

/-- The warnings of a run: the description warning when the lower-cased
description contains "this plugin", then the author warning when the author
matches the email pattern. -/
theorem ValidateManifest_warnings_eq (caseTable : Char → Char) (m : Manifest) :
    (ValidateManifest caseTable m).Warnings =
      (if strings.Contains (strings.ToLower caseTable m.Description) "this plugin" = true then
          ["Avoid phrases like 'this plugin' in the description"] else []) ++
      (if regexp.MatchString emailRegex m.Author = true then
          ["Email addresses are discouraged in the author field"] else []) := by
  rw [ValidateManifest_warnings, validateID_warnings, validateName_warnings,
    validateDescription_warnings, validateAuthor_warnings, validateVersion_warnings,
    validateURLs_warnings, validateMinAppVersion_warnings]
  simp only [List.nil_append, List.append_nil]
  congr 1
  · by_cases h : m.Description = ""
    · simp only [h, if_true, contains_this_plugin_empty, Bool.false_eq_true, if_false]
    · simp only [h, if_false]
  · by_cases h : m.Author = ""
    · simp only [h, if_true, emailRegex_empty, Bool.false_eq_true, if_false]
    · simp only [h, if_false]

/-- C6: the warnings of a run are exactly the "this plugin" warning, once, when
the lower-cased description contains "this plugin", followed by the email
warning when the author matches the email pattern; so a record that conforms to
every error rule, whose description contains "this plugin" and whose author is
email-shaped, yields 0 errors and exactly these 2 warnings. -/
theorem C6_warnings_exactly (caseTable : Char → Char) (m : Manifest) :
    ((ValidateManifest caseTable m).Warnings =
      (if strings.Contains (strings.ToLower caseTable m.Description) "this plugin" = true then
          ["Avoid phrases like 'this plugin' in the description"] else []) ++
      (if regexp.MatchString emailRegex m.Author = true then
          ["Email addresses are discouraged in the author field"] else [])) ∧
    ((m.ID ≠ "" ∧
        (∀ c ∈ m.ID.data, ('a' ≤ c ∧ c ≤ 'z') ∨ ('0' ≤ c ∧ c ≤ '9') ∨ c = '-' ∨ c = '_') ∧
        strings.Contains (strings.ToLower caseTable m.ID) "obsidian" = false ∧
        strings.HasSuffix (strings.ToLower caseTable m.ID) "plugin" = false) →
      (m.Name ≠ "" ∧
        strings.Contains (strings.ToLower caseTable m.Name) "obsidian" = false ∧
        strings.HasSuffix (strings.ToLower caseTable m.Name) "plugin" = false) →
      (m.Description ≠ "" ∧
        strings.Contains (strings.ToLower caseTable m.Description) "obsidian" = false ∧
        m.Description.utf8ByteSize ≤ 250) →
      (m.Version ≠ "" ∧ ∀ c ∈ m.Version.data, ('0' ≤ c ∧ c ≤ '9') ∨ c = '.') →
      (m.MinAppVersion ≠ "" ∧ ∀ c ∈ m.MinAppVersion.data, ('0' ≤ c ∧ c ≤ '9') ∨ c = '.') →
      m.AuthorURL ≠ "https://obsidian.md" →
      m.FundingURL ≠ "https://obsidian.md/pricing" →
      strings.Contains (strings.ToLower caseTable m.Description) "this plugin" = true →
      regexp.MatchString emailRegex m.Author = true →
      (ValidateManifest caseTable m).Errors.length = 0 ∧
      (ValidateManifest caseTable m).Warnings =
        ["Avoid phrases like 'this plugin' in the description",
          "Email addresses are discouraged in the author field"] ∧
      (ValidateManifest caseTable m).Warnings.length = 2) := by
  refine ⟨ValidateManifest_warnings_eq caseTable m, ?_⟩
  intro hid hname hdesc hversion hmin hauthorURL hfundingURL hthis hemail
  have hauthor : m.Author ≠ "" := by
    intro h
    rw [h, emailRegex_empty] at hemail
    exact Bool.false_ne_true hemail
  have herr : (ValidateManifest caseTable m).Errors = [] := by
    rw [ValidateManifest_errors]
    simp only [List.append_eq_nil, validateID_errors_nil, validateName_errors_nil,
      validateDescription_errors_nil, validateAuthor_errors_nil, validateVersion_errors_nil,
      validateURLs_errors_nil, validateMinAppVersion_errors_nil]
    exact ⟨⟨⟨⟨⟨⟨hid, hname⟩, hdesc⟩, hauthor⟩, hversion⟩, hauthorURL, hfundingURL⟩, hmin⟩
  have hwarn := ValidateManifest_warnings_eq caseTable m
  simp only [hthis, hemail, if_true] at hwarn
  refine ⟨by rw [herr]; rfl, hwarn, by rw [hwarn]; rfl⟩

/-- C6 at the warning-only test case: 0 errors and the 2 warnings. -/
theorem C6_warnings_exactly_witness :
    (ValidateManifest id getWarningOnlyTestCase.manifest).Errors.length =
      getWarningOnlyTestCase.wantErrors ∧
    (ValidateManifest id getWarningOnlyTestCase.manifest).Warnings =
      ["Avoid phrases like 'this plugin' in the description",
        "Email addresses are discouraged in the author field"] ∧
    (ValidateManifest id getWarningOnlyTestCase.manifest).Warnings.length =
      getWarningOnlyTestCase.wantWarnings :=
  (C6_warnings_exactly id getWarningOnlyTestCase.manifest).2
    (by decide) (by decide) (by decide) (by decide) (by decide) (by decide) (by decide)
    (by decide) (by decide)

/-- The length check of `validateDescription` at its boundary, in the unit it
measures: a description of 250 bytes gets no length error (its only possible
error is the "Obsidian" one), one of 251 bytes gets the length error, whose
text cites 251. -/
theorem validateDescription_length_boundary_bytes (caseTable : Char → Char) (m : Manifest) :
    (m.Description.utf8ByteSize = 250 →
      (validateDescription caseTable m ⟨[], []⟩).Errors =
        if strings.Contains (strings.ToLower caseTable m.Description) "obsidian" = true then
          ["Description should not contain the word 'Obsidian'"] else []) ∧
    (m.Description.utf8ByteSize = 251 →
      "Description should be under 250 characters (currently 251)" ∈
        (validateDescription caseTable m ⟨[], []⟩).Errors) := by
  constructor
  · intro h
    have hne : m.Description ≠ "" := by
      intro h0
      rw [h0] at h
      exact absurd h (by decide)
    rw [validateDescription_errors]
    simp only [hne, if_false, h, gt_iff_lt, Nat.lt_irrefl, List.append_nil]
  · intro h
    have hne : m.Description ≠ "" := by
      intro h0
      rw [h0] at h
      exact absurd h (by decide)
    rw [validateDescription_errors]
    simp only [hne, if_false, h, gt_iff_lt, show (250 : Nat) < 251 by decide, if_true]
    exact List.mem_append_right _ (List.mem_singleton.mpr rfl)

set_option maxRecDepth 20000 in
/-- C7: `validateDescription` measures the description in bytes, not in
characters.  A description of 250 characters, 249 times `a` followed by `é`,
takes 251 bytes and gets the length error, citing 251; a description of 251
characters, 250 times `a` followed by `é`, takes 252 bytes and its length error
cites 252. -/
theorem C7_length_check_counts_bytes (caseTable : Char → Char) :
    (String.mk (List.replicate 249 'a' ++ ['é'])).length = 250 ∧
    "Description should be under 250 characters (currently 251)" ∈
      (validateDescription caseTable
        { getValidManifestTestCase.manifest with
          Description := String.mk (List.replicate 249 'a' ++ ['é']) } ⟨[], []⟩).Errors ∧
    (String.mk (List.replicate 250 'a' ++ ['é'])).length = 251 ∧
    "Description should be under 250 characters (currently 252)" ∈
      (validateDescription caseTable
        { getValidManifestTestCase.manifest with
          Description := String.mk (List.replicate 250 'a' ++ ['é']) } ⟨[], []⟩).Errors := by
  have h1 : (String.mk (List.replicate 249 'a' ++ ['é'])).utf8ByteSize = 251 := by decide
  have h2 : (String.mk (List.replicate 250 'a' ++ ['é'])).utf8ByteSize = 252 := by decide
  have n1 : String.mk (List.replicate 249 'a' ++ ['é']) ≠ "" := by decide
  have n2 : String.mk (List.replicate 250 'a' ++ ['é']) ≠ "" := by decide
  refine ⟨by decide, ?_, by decide, ?_⟩
  · rw [validateDescription_errors]
    simp only [n1, if_false, h1, gt_iff_lt, show (250 : Nat) < 251 by decide, if_true]
    exact List.mem_append_right _ (List.mem_singleton.mpr rfl)
  · rw [validateDescription_errors]
    simp only [n2, if_false, h2, gt_iff_lt, show (250 : Nat) < 252 by decide, if_true]
    exact List.mem_append_right _ (List.mem_singleton.mpr rfl)

/-- C8: for a non-empty ID, `validateID` adds the character-class error exactly
when some character of the ID is outside `a-z`, `0-9`, `-`, `_`, and what it
appends to the errors is, in this order, the "contains obsidian" error when the
lower-cased ID contains "obsidian", the "ends with plugin" error when the
lower-cased ID ends with "plugin", and the character-class error; the three
checks do not depend on one another and no warning is added. -/
theorem C8_id_checks_independent (caseTable : Char → Char) (m : Manifest)
    (r : ValidationResult) (h : m.ID ≠ "") :
    ("Plugin ID must contain only lowercase alphanumeric characters, dashes, and underscores" ∈
        (validateID caseTable m ⟨[], []⟩).Errors ↔
      ∃ c ∈ m.ID.data, ¬ (('a' ≤ c ∧ c ≤ 'z') ∨ ('0' ≤ c ∧ c ≤ '9') ∨ c = '-' ∨ c = '_')) ∧
    (validateID caseTable m r).Errors =
      r.Errors ++
      ((if strings.Contains (strings.ToLower caseTable m.ID) "obsidian" = true then
          ["Plugin ID should not contain the word 'obsidian'"] else []) ++
        (if strings.HasSuffix (strings.ToLower caseTable m.ID) "plugin" = true then
          ["Plugin ID should not end with 'plugin'"] else []) ++
        (if ∃ c ∈ m.ID.data, ¬ (('a' ≤ c ∧ c ≤ 'z') ∨ ('0' ≤ c ∧ c ≤ '9') ∨ c = '-' ∨ c = '_') then
          ["Plugin ID must contain only lowercase alphanumeric characters, dashes, and underscores"]
          else [])) ∧
    (validateID caseTable m r).Warnings = r.Warnings := by
  have hre : regexp.MatchString idRegex m.ID = true ↔
      ¬ ∃ c ∈ m.ID.data, ¬ (('a' ≤ c ∧ c ≤ 'z') ∨ ('0' ≤ c ∧ c ≤ '9') ∨ c = '-' ∨ c = '_') := by
    rw [idRegex_match_iff]
    simp only [ne_eq, h, not_false_eq_true, true_and, not_exists, not_and, not_not]
  have herr := validateID_errors caseTable m
  simp only [h, if_false] at herr
  refine ⟨?_, ?_, ?_⟩
  · rw [herr]
    by_cases hm : regexp.MatchString idRegex m.ID = true
    · have hno := hre.mp hm
      simp only [hm, if_true, List.append_nil, hno, iff_false]
      split_ifs <;> simp
    · have hex := not_not.mp (mt hre.mpr hm)
      simp only [hm, Bool.false_eq_true, if_false, hex, iff_true]
      exact List.mem_append_right _ (List.mem_singleton.mpr rfl)
  · rw [validateID_frame, herr]
    by_cases hm : regexp.MatchString idRegex m.ID = true
    · simp only [hm, if_true, hre.mp hm, if_false]
    · simp only [hm, Bool.false_eq_true, if_false, not_not.mp (mt hre.mpr hm), if_true]
  · rw [validateID_frame, validateID_warnings, List.append_nil]

/-- C8 at an ID on which the three checks all fire. -/
theorem C8_id_checks_independent_witness :
    { getValidManifestTestCase.manifest with ID := "My Obsidian-Plugin" }.ID ≠ "" ∧
    (validateID id { getValidManifestTestCase.manifest with ID := "My Obsidian-Plugin" }
        ⟨["e"], ["w"]⟩).Errors =
      ["e", "Plugin ID should not contain the word 'obsidian'",
        "Plugin ID should not end with 'plugin'",
        "Plugin ID must contain only lowercase alphanumeric characters, dashes, and underscores"] :=
  ⟨by decide,
    (C8_id_checks_independent id
      { getValidManifestTestCase.manifest with ID := "My Obsidian-Plugin" } ⟨["e"], ["w"]⟩
      (by decide)).2.1.trans (by decide)⟩

/-- C9: for a non-empty version, `validateVersion` adds its format error exactly
when some character of the version is neither a digit `0-9` nor a dot, and
`validateMinAppVersion` does the same with minAppVersion; "1.0.0-beta" is
rejected, "." and "1..0" are accepted. -/
theorem C9_version_digits_and_dots (m : Manifest) (r : ValidationResult) :
    (m.Version ≠ "" →
      (validateVersion m r).Errors =
        r.Errors ++
        (if ∃ c ∈ m.Version.data, ¬ (('0' ≤ c ∧ c ≤ '9') ∨ c = '.') then
          ["Invalid version number format (should only contain numbers and dots)"] else [])) ∧
    (m.MinAppVersion ≠ "" →
      (validateMinAppVersion m r).Errors =
        r.Errors ++
        (if ∃ c ∈ m.MinAppVersion.data, ¬ (('0' ≤ c ∧ c ≤ '9') ∨ c = '.') then
          ["Invalid minAppVersion format (should only contain numbers and dots)"] else [])) ∧
    (validateVersion { m with Version := "1.0.0-beta" } r).Errors =
      r.Errors ++ ["Invalid version number format (should only contain numbers and dots)"] ∧
    (validateMinAppVersion { m with MinAppVersion := "1.0.0-beta" } r).Errors =
      r.Errors ++ ["Invalid minAppVersion format (should only contain numbers and dots)"] ∧
    (validateVersion { m with Version := "." } r).Errors = r.Errors ∧
    (validateVersion { m with Version := "1..0" } r).Errors = r.Errors ∧
    (validateMinAppVersion { m with MinAppVersion := "." } r).Errors = r.Errors ∧
    (validateMinAppVersion { m with MinAppVersion := "1..0" } r).Errors = r.Errors := by
  have key : ∀ s : String, s ≠ "" →
      (regexp.MatchString versionRegex s = true ↔
        ¬ ∃ c ∈ s.data, ¬ (('0' ≤ c ∧ c ≤ '9') ∨ c = '.')) := by
    intro s hs
    rw [versionRegex_match_iff]
    simp only [ne_eq, hs, not_false_eq_true, true_and, not_exists, not_and, not_not]
  refine ⟨fun h => ?_, fun h => ?_, ?_, ?_, ?_, ?_, ?_, ?_⟩
  · rw [validateVersion_frame, validateVersion_errors]
    by_cases hm : regexp.MatchString versionRegex m.Version = true
    · simp only [h, if_false, hm, if_true, (key _ h).mp hm]
    · simp only [h, if_false, hm, Bool.false_eq_true, not_not.mp (mt (key _ h).mpr hm), if_true]
  · rw [validateMinAppVersion_frame, validateMinAppVersion_errors]
    by_cases hm : regexp.MatchString versionRegex m.MinAppVersion = true
    · simp only [h, if_false, hm, if_true, (key _ h).mp hm]
    · simp only [h, if_false, hm, Bool.false_eq_true, not_not.mp (mt (key _ h).mpr hm), if_true]
  · rw [validateVersion_frame, validateVersion_errors]
    rfl
  · rw [validateMinAppVersion_frame, validateMinAppVersion_errors]
    rfl
  · rw [validateVersion_frame, validateVersion_errors]
    exact List.append_nil _
  · rw [validateVersion_frame, validateVersion_errors]
    exact List.append_nil _
  · rw [validateMinAppVersion_frame, validateMinAppVersion_errors]
    exact List.append_nil _
  · rw [validateMinAppVersion_frame, validateMinAppVersion_errors]
    exact List.append_nil _

/-- C9 at the invalid test case (version "1.0.0-beta", minAppVersion
"1.0.0-final") and at the valid one (both "1.0.0"). -/
theorem C9_version_digits_and_dots_witness :
    (getInvalidManifestTestCase.manifest.Version ≠ "" ∧
      getInvalidManifestTestCase.manifest.MinAppVersion ≠ "" ∧
      getValidManifestTestCase.manifest.Version ≠ "" ∧
      getValidManifestTestCase.manifest.MinAppVersion ≠ "") ∧
    (validateVersion getInvalidManifestTestCase.manifest ⟨[], []⟩).Errors =
      ["Invalid version number format (should only contain numbers and dots)"] ∧
    (validateMinAppVersion getInvalidManifestTestCase.manifest ⟨[], []⟩).Errors =
      ["Invalid minAppVersion format (should only contain numbers and dots)"] ∧
    (validateVersion getValidManifestTestCase.manifest ⟨[], []⟩).Errors = [] ∧
    (validateMinAppVersion getValidManifestTestCase.manifest ⟨[], []⟩).Errors = [] :=
  ⟨by decide,
    ((C9_version_digits_and_dots getInvalidManifestTestCase.manifest ⟨[], []⟩).1
      (by decide)).trans (by decide),
    ((C9_version_digits_and_dots getInvalidManifestTestCase.manifest ⟨[], []⟩).2.1
      (by decide)).trans (by decide),
    ((C9_version_digits_and_dots getValidManifestTestCase.manifest ⟨[], []⟩).1
      (by decide)).trans (by decide),
    ((C9_version_digits_and_dots getValidManifestTestCase.manifest ⟨[], []⟩).2.1
      (by decide)).trans (by decide)⟩

/-! ## Case -/

theorem unicode.ToLower_eq_of_upper (caseTable : Char → Char) (c c' : Char)
    (hA : 'A' ≤ c) (hZ : c ≤ 'Z') (h : c'.toNat = c.toNat + 32) :
    unicode.ToLower caseTable c' = unicode.ToLower caseTable c := by
  have hA' : 65 ≤ c.toNat := hA
  have hZ' : c.toNat ≤ 90 := hZ
  have e1 : 'A'.toNat = 65 := rfl
  have e2 : 'Z'.toNat = 90 := rfl
  have e3 : 'a'.toNat = 97 := rfl
  have l1 : c.toNat ≤ unicode.MaxASCII := by simp only [unicode.MaxASCII]; omega
  have l2 : c'.toNat ≤ unicode.MaxASCII := by simp only [unicode.MaxASCII]; omega
  have l3 : ¬ ('A'.toNat ≤ c'.toNat ∧ c'.toNat ≤ 'Z'.toNat) := by rw [e1, e2]; omega
  have l4 : 'A'.toNat ≤ c.toNat ∧ c.toNat ≤ 'Z'.toNat := by rw [e1, e2]; omega
  unfold unicode.ToLower
  rw [if_pos l2, if_pos l1, if_neg l3, if_pos l4, e3, e1,
    show c.toNat + (97 - 65) = c'.toNat by omega, Char.ofNat_toNat]

theorem unicode.map_ToLower_eq_of_case_variant (caseTable : Char → Char) {l l' : List Char}
    (h : List.Forall₂
      (fun c c' : Char => c' = c ∨ ('A' ≤ c ∧ c ≤ 'Z' ∧ c'.toNat = c.toNat + 32) ∨
        ('A' ≤ c' ∧ c' ≤ 'Z' ∧ c.toNat = c'.toNat + 32) ∨
        (unicode.ToLower caseTable c = c' ∧ unicode.ToLower caseTable c' = c') ∨
        (unicode.ToLower caseTable c' = c ∧ unicode.ToLower caseTable c = c)) l l') :
    l.map (unicode.ToLower caseTable) = l'.map (unicode.ToLower caseTable) := by
  induction h with
  | nil => rfl
  | cons hc _ ih =>
    rw [List.map_cons, List.map_cons, ih]
    congr 1
    rcases hc with hc | ⟨hA, hZ, hc⟩ | ⟨hA, hZ, hc⟩ | ⟨h1, h2⟩ | ⟨h1, h2⟩
    · rw [hc]
    · exact (unicode.ToLower_eq_of_upper caseTable _ _ hA hZ hc).symm
    · exact unicode.ToLower_eq_of_upper caseTable _ _ hA hZ hc
    · rw [h2, h1]
    · rw [h2, h1]

/-- Two texts that differ only in the case of letters have the same lower-case
form. -/
theorem strings.ToLower_eq_of_case_variant (caseTable : Char → Char) (s s' : String)
    (h : List.Forall₂
      (fun c c' : Char => c' = c ∨ ('A' ≤ c ∧ c ≤ 'Z' ∧ c'.toNat = c.toNat + 32) ∨
        ('A' ≤ c' ∧ c' ≤ 'Z' ∧ c.toNat = c'.toNat + 32) ∨
        (unicode.ToLower caseTable c = c' ∧ unicode.ToLower caseTable c' = c') ∨
        (unicode.ToLower caseTable c' = c ∧ unicode.ToLower caseTable c = c)) s.data s'.data) :
    strings.ToLower caseTable s = strings.ToLower caseTable s' := by
  apply String.ext
  rw [strings.ToLower_data, strings.ToLower_data]
  exact unicode.map_ToLower_eq_of_case_variant caseTable h

section Triggers

variable (caseTable : Char → Char) (m : Manifest)

theorem validateID_obsidian_iff :
    "Plugin ID should not contain the word 'obsidian'" ∈ (validateID caseTable m ⟨[], []⟩).Errors ↔
      m.ID ≠ "" ∧ strings.Contains (strings.ToLower caseTable m.ID) "obsidian" = true := by
  rw [validateID_errors]
  split_ifs <;> simp_all

theorem validateID_plugin_iff :
    "Plugin ID should not end with 'plugin'" ∈ (validateID caseTable m ⟨[], []⟩).Errors ↔
      m.ID ≠ "" ∧ strings.HasSuffix (strings.ToLower caseTable m.ID) "plugin" = true := by
  rw [validateID_errors]
  split_ifs <;> simp_all

theorem validateName_obsidian_iff :
    "Plugin name should not contain the word 'Obsidian'" ∈
        (validateName caseTable m ⟨[], []⟩).Errors ↔
      m.Name ≠ "" ∧ strings.Contains (strings.ToLower caseTable m.Name) "obsidian" = true := by
  rw [validateName_errors]
  split_ifs <;> simp_all

theorem validateName_plugin_iff :
    "Plugin name should not end with 'Plugin'" ∈ (validateName caseTable m ⟨[], []⟩).Errors ↔
      m.Name ≠ "" ∧ strings.HasSuffix (strings.ToLower caseTable m.Name) "plugin" = true := by
  rw [validateName_errors]
  split_ifs <;> simp_all

theorem validateDescription_warning_iff :
    "Avoid phrases like 'this plugin' in the description" ∈
        (validateDescription caseTable m ⟨[], []⟩).Warnings ↔
      m.Description ≠ "" ∧
        strings.Contains (strings.ToLower caseTable m.Description) "this plugin" = true := by
  rw [validateDescription_warnings]
  split_ifs <;> simp_all

end Triggers

theorem sprintf_length_ne_obsidian (n : Nat) :
    fmt.Sprintf "Description should be under %d characters (currently %d)" [250, n] ≠
      "Description should not contain the word 'Obsidian'" := by
  intro h
  have h1 : (fmt.Sprintf "Description should be under %d characters (currently %d)"
      [250, n]).data.take 20 = "Description should b".data := rfl
  have h2 : (fmt.Sprintf "Description should be under %d characters (currently %d)"
      [250, n]).data.take 20 =
      ("Description should not contain the word 'Obsidian'" : String).data.take 20 := by rw [h]
  rw [h1] at h2
  exact absurd h2 (by decide)

theorem validateDescription_obsidian_iff (caseTable : Char → Char) (m : Manifest) :
    "Description should not contain the word 'Obsidian'" ∈
        (validateDescription caseTable m ⟨[], []⟩).Errors ↔
      m.Description ≠ "" ∧
        strings.Contains (strings.ToLower caseTable m.Description) "obsidian" = true := by
  have hne := (sprintf_length_ne_obsidian m.Description.utf8ByteSize).symm
  rw [validateDescription_errors]
  generalize fmt.Sprintf "Description should be under %d characters (currently %d)"
    [250, m.Description.utf8ByteSize] = msg at hne ⊢
  split_ifs <;> simp_all

/-- C10, amended: the substring and suffix comparisons ignore the case changes
that lower-casing undoes.  Let `s'` be `s` with the case of some letters changed
and every other character kept, where a change of case is one of: a letter
`A-Z` replaced by the letter 32 code points further (`a-z`) or the other way
round; any character `c` replaced by its lower-case form `unicode.ToLower c`,
when that form is itself left unchanged by `unicode.ToLower`, or the other way
round.  Then, whatever the rest of the record, the "contains obsidian" errors
of the ID, of the name and of the description, the "ends with plugin" errors of
the ID and of the name, and the "this plugin" warning of the description are
raised for `s` exactly when they are raised for `s'`.  (A lower-case character
whose upper-case form lower-cases to another character, such as `ı` and `ſ`, is
outside this statement.) -/
theorem C10_comparisons_ignore_case (caseTable : Char → Char) (m : Manifest) (s s' : String)
    (h : List.Forall₂
      (fun c c' : Char => c' = c ∨ ('A' ≤ c ∧ c ≤ 'Z' ∧ c'.toNat = c.toNat + 32) ∨
        ('A' ≤ c' ∧ c' ≤ 'Z' ∧ c.toNat = c'.toNat + 32) ∨
        (unicode.ToLower caseTable c = c' ∧ unicode.ToLower caseTable c' = c') ∨
        (unicode.ToLower caseTable c' = c ∧ unicode.ToLower caseTable c = c)) s.data s'.data) :
    ("Plugin ID should not contain the word 'obsidian'" ∈
        (validateID caseTable { m with ID := s } ⟨[], []⟩).Errors ↔
      "Plugin ID should not contain the word 'obsidian'" ∈
        (validateID caseTable { m with ID := s' } ⟨[], []⟩).Errors) ∧
    ("Plugin ID should not end with 'plugin'" ∈
        (validateID caseTable { m with ID := s } ⟨[], []⟩).Errors ↔
      "Plugin ID should not end with 'plugin'" ∈
        (validateID caseTable { m with ID := s' } ⟨[], []⟩).Errors) ∧
    ("Plugin name should not contain the word 'Obsidian'" ∈
        (validateName caseTable { m with Name := s } ⟨[], []⟩).Errors ↔
      "Plugin name should not contain the word 'Obsidian'" ∈
        (validateName caseTable { m with Name := s' } ⟨[], []⟩).Errors) ∧
    ("Plugin name should not end with 'Plugin'" ∈
        (validateName caseTable { m with Name := s } ⟨[], []⟩).Errors ↔
      "Plugin name should not end with 'Plugin'" ∈
        (validateName caseTable { m with Name := s' } ⟨[], []⟩).Errors) ∧
    ("Description should not contain the word 'Obsidian'" ∈
        (validateDescription caseTable { m with Description := s } ⟨[], []⟩).Errors ↔
      "Description should not contain the word 'Obsidian'" ∈
        (validateDescription caseTable { m with Description := s' } ⟨[], []⟩).Errors) ∧
    ("Avoid phrases like 'this plugin' in the description" ∈
        (validateDescription caseTable { m with Description := s } ⟨[], []⟩).Warnings ↔
      "Avoid phrases like 'this plugin' in the description" ∈
        (validateDescription caseTable { m with Description := s' } ⟨[], []⟩).Warnings) := by
  have hlow := strings.ToLower_eq_of_case_variant caseTable s s' h
  have hempty : s = "" ↔ s' = "" := by
    rw [String.eq_empty_iff_data, String.eq_empty_iff_data, ← List.length_eq_zero,
      ← List.length_eq_zero, h.length_eq]
  simp only [validateID_obsidian_iff, validateID_plugin_iff, validateName_obsidian_iff,
    validateName_plugin_iff, validateDescription_obsidian_iff, validateDescription_warning_iff,
    hlow, ne_eq, hempty, and_self]

/-- C10 at "OBSIDIAN" and "Obsidian": the second is the first with the case of
seven letters changed, and the "contains obsidian" error of the ID is raised
for both. -/
theorem C10_comparisons_ignore_case_witness :
    List.Forall₂
      (fun c c' : Char => c' = c ∨ ('A' ≤ c ∧ c ≤ 'Z' ∧ c'.toNat = c.toNat + 32) ∨
        ('A' ≤ c' ∧ c' ≤ 'Z' ∧ c.toNat = c'.toNat + 32) ∨
        (unicode.ToLower id c = c' ∧ unicode.ToLower id c' = c') ∨
        (unicode.ToLower id c' = c ∧ unicode.ToLower id c = c))
      ("OBSIDIAN" : String).data ("Obsidian" : String).data ∧
    "Plugin ID should not contain the word 'obsidian'" ∈
      (validateID id { getValidManifestTestCase.manifest with ID := "OBSIDIAN" } ⟨[], []⟩).Errors ∧
    "Plugin ID should not contain the word 'obsidian'" ∈
      (validateID id { getValidManifestTestCase.manifest with ID := "Obsidian" } ⟨[], []⟩).Errors :=
  have hv : List.Forall₂
      (fun c c' : Char => c' = c ∨ ('A' ≤ c ∧ c ≤ 'Z' ∧ c'.toNat = c.toNat + 32) ∨
        ('A' ≤ c' ∧ c' ≤ 'Z' ∧ c.toNat = c'.toNat + 32) ∨
        (unicode.ToLower id c = c' ∧ unicode.ToLower id c' = c') ∨
        (unicode.ToLower id c' = c ∧ unicode.ToLower id c = c))
      ("OBSIDIAN" : String).data ("Obsidian" : String).data := by
    refine .cons (.inl rfl) (.cons ?_ (.cons ?_ (.cons ?_ (.cons ?_ (.cons ?_ (.cons ?_
      (.cons ?_ .nil))))))) <;> exact .inr (.inl (by decide))
  ⟨hv, by decide,
    (C10_comparisons_ignore_case id getValidManifestTestCase.manifest "OBSIDIAN" "Obsidian"
      hv).1.mp (by decide)⟩

/-- C11: for a non-empty name, `validateName` appends, in this order, "Plugin
name should not contain the word 'Obsidian'" when the lower-cased name contains
"obsidian" and "Plugin name should not end with 'Plugin'" when the lower-cased
name ends with "plugin", each check on its own (both when both hold); and for
any name it adds no warning. -/
theorem C11_name_checks_independent (caseTable : Char → Char) (m : Manifest)
    (r : ValidationResult) :
    (m.Name ≠ "" →
      (validateName caseTable m r).Errors =
        r.Errors ++
        ((if strings.Contains (strings.ToLower caseTable m.Name) "obsidian" = true then
            ["Plugin name should not contain the word 'Obsidian'"] else []) ++
          (if strings.HasSuffix (strings.ToLower caseTable m.Name) "plugin" = true then
            ["Plugin name should not end with 'Plugin'"] else []))) ∧
    (m.Name ≠ "" →
      strings.Contains (strings.ToLower caseTable m.Name) "obsidian" = true →
      strings.HasSuffix (strings.ToLower caseTable m.Name) "plugin" = true →
      (validateName caseTable m r).Errors =
        r.Errors ++ ["Plugin name should not contain the word 'Obsidian'",
          "Plugin name should not end with 'Plugin'"]) ∧
    (validateName caseTable m r).Warnings = r.Warnings := by
  have herr : m.Name ≠ "" →
      (validateName caseTable m r).Errors =
        r.Errors ++
        ((if strings.Contains (strings.ToLower caseTable m.Name) "obsidian" = true then
            ["Plugin name should not contain the word 'Obsidian'"] else []) ++
          (if strings.HasSuffix (strings.ToLower caseTable m.Name) "plugin" = true then
            ["Plugin name should not end with 'Plugin'"] else [])) := by
    intro h
    rw [validateName_frame, validateName_errors]
    simp only [h, if_false]
  refine ⟨herr, fun h hc hs => ?_, ?_⟩
  · rw [herr h]
    simp only [hc, hs, if_true, List.singleton_append]
  · rw [validateName_frame, validateName_warnings, List.append_nil]

/-- C11 at the name of the invalid test case, "Bad Obsidian Plugin", on which
both checks fire. -/
theorem C11_name_checks_independent_witness :
    getInvalidManifestTestCase.manifest.Name ≠ "" ∧
    strings.Contains (strings.ToLower id getInvalidManifestTestCase.manifest.Name) "obsidian" =
      true ∧
    strings.HasSuffix (strings.ToLower id getInvalidManifestTestCase.manifest.Name) "plugin" =
      true ∧
    (validateName id getInvalidManifestTestCase.manifest ⟨["e"], ["w"]⟩).Errors =
      ["e", "Plugin name should not contain the word 'Obsidian'",
        "Plugin name should not end with 'Plugin'"] :=
  ⟨by decide, by decide, by decide,
    (C11_name_checks_independent id getInvalidManifestTestCase.manifest ⟨["e"], ["w"]⟩).2.1
      (by decide) (by decide) (by decide)⟩

/-- C12: `validateURLs` appends the author-URL error exactly when authorUrl is
"https://obsidian.md" and then the funding-URL error exactly when fundingUrl is
"https://obsidian.md/pricing"; it appends nothing else and no warning.  An
empty URL and a URL that differs by case, by scheme or by a trailing slash give
no finding. -/
theorem C12_urls_exact_match_only (m : Manifest) (r : ValidationResult) :
    (validateURLs m r).Errors =
      r.Errors ++
      ((if m.AuthorURL = "https://obsidian.md" then
          ["Author URL should not point to Obsidian website"] else []) ++
        (if m.FundingURL = "https://obsidian.md/pricing" then
          ["Funding URL should not point to Obsidian pricing"] else [])) ∧
    (validateURLs m r).Warnings = r.Warnings ∧
    validateURLs { m with AuthorURL := "", FundingURL := "" } r = r ∧
    validateURLs { m with AuthorURL := "https://obsidian.md/",
                          FundingURL := "https://obsidian.md/pricing/" } r = r ∧
    validateURLs { m with AuthorURL := "https://Obsidian.md",
                          FundingURL := "https://obsidian.md/Pricing" } r = r ∧
    validateURLs { m with AuthorURL := "http://obsidian.md",
                          FundingURL := "http://obsidian.md/pricing" } r = r := by
  refine ⟨?_, ?_, ?_, ?_, ?_, ?_⟩
  · rw [validateURLs_frame, validateURLs_errors]
  · rw [validateURLs_frame, validateURLs_warnings, List.append_nil]
  all_goals
    rw [validateURLs_frame, validateURLs_errors, validateURLs_warnings]
    dsimp only
    rw [if_neg (by decide), if_neg (by decide), List.append_nil, List.append_nil,
      List.append_nil]

/-- C13: a result is valid exactly when it has no error, and a warning never
changes that: `AddWarning` leaves the errors and the validity as they were and
puts the message at the end of the warnings. -/
theorem C13_valid_iff_no_errors_warnings_inert (r : ValidationResult) (w : String) :
    (r.IsValid = true ↔ r.Errors = []) ∧
    (r.AddWarning w).Errors = r.Errors ∧
    (r.AddWarning w).IsValid = r.IsValid ∧
    (r.AddWarning w).Warnings = r.Warnings ++ [w] := by
  refine ⟨?_, rfl, rfl, rfl⟩
  simp only [ValidationResult.IsValid, beq_iff_eq, List.length_eq_zero]

/-- C14: `AddError` only appends: afterwards the errors are the previous errors
followed by the new message, the warnings are unchanged, and the result is not
valid. -/
theorem C14_add_error_appends (r : ValidationResult) (e : String) :
    (r.AddError e).Errors = r.Errors ++ [e] ∧
    (r.AddError e).Warnings = r.Warnings ∧
    (r.AddError e).IsValid = false := by
  refine ⟨rfl, rfl, ?_⟩
  simp only [ValidationResult.IsValid, ValidationResult.AddError, List.length_append,
    List.length_singleton, beq_eq_false_iff_ne, ne_eq, Nat.add_one_ne_zero, not_false_eq_true]

/-- C15: no rule reads isDesktopOnly: changing only that flag changes neither
the errors nor the warnings of a run. -/
theorem C15_desktop_only_ignored (caseTable : Char → Char) (m : Manifest) (b : Bool) :
    (ValidateManifest caseTable { m with IsDesktopOnly := b }).Errors =
      (ValidateManifest caseTable m).Errors ∧
    (ValidateManifest caseTable { m with IsDesktopOnly := b }).Warnings =
      (ValidateManifest caseTable m).Warnings := by
  have h : ValidateManifest caseTable { m with IsDesktopOnly := b } =
      ValidateManifest caseTable m := by
    simp only [ValidateManifest, validateID, validateName, validateDescription, validateAuthor,
      validateVersion, validateURLs, validateMinAppVersion]
  rw [h]
  exact ⟨rfl, rfl⟩

theorem validateID_of_isASCII (caseTable caseTable' : Char → Char) (m : Manifest)
    (r : ValidationResult) (h : strings.isASCII m.ID = true) :
    validateID caseTable m r = validateID caseTable' m r := by
  simp only [validateID, strings.ToLower_of_isASCII caseTable caseTable' m.ID h]

theorem validateName_of_isASCII (caseTable caseTable' : Char → Char) (m : Manifest)
    (r : ValidationResult) (h : strings.isASCII m.Name = true) :
    validateName caseTable m r = validateName caseTable' m r := by
  simp only [validateName, strings.ToLower_of_isASCII caseTable caseTable' m.Name h]

theorem validateDescription_of_isASCII (caseTable caseTable' : Char → Char) (m : Manifest)
    (r : ValidationResult) (h : strings.isASCII m.Description = true) :
    validateDescription caseTable m r = validateDescription caseTable' m r := by
  simp only [validateDescription,
    strings.ToLower_of_isASCII caseTable caseTable' m.Description h]

/-- The number of errors each validator can add to an empty result. -/
theorem validators_errors_length_le (caseTable : Char → Char) (m : Manifest) :
    (validateID caseTable m ⟨[], []⟩).Errors.length ≤ 3 ∧
    (validateName caseTable m ⟨[], []⟩).Errors.length ≤ 2 ∧
    (validateDescription caseTable m ⟨[], []⟩).Errors.length ≤ 2 ∧
    (validateAuthor m ⟨[], []⟩).Errors.length ≤ 1 ∧
    (validateVersion m ⟨[], []⟩).Errors.length ≤ 1 ∧
    (validateURLs m ⟨[], []⟩).Errors.length ≤ 2 ∧
    (validateMinAppVersion m ⟨[], []⟩).Errors.length ≤ 1 := by
  refine ⟨?_, ?_, ?_, ?_, ?_, ?_, ?_⟩
  · rw [validateID_errors]; split_ifs <;> simp
  · rw [validateName_errors]; split_ifs <;> simp
  · rw [validateDescription_errors]; split_ifs <;> simp
  · rw [validateAuthor_errors]; split_ifs <;> simp
  · rw [validateVersion_errors]; split_ifs <;> simp
  · rw [validateURLs_errors]; split_ifs <;> simp
  · rw [validateMinAppVersion_errors]; split_ifs <;> simp

set_option maxRecDepth 20000 in
/-- C20: a run returns at most 12 errors and at most 2 warnings.  Both bounds
are reached: a record with ID and name "Obsidian Plugin", a 258-byte
description starting with "obsidian", no author, version and minAppVersion
"v1" and the two disallowed URLs gets 3 + 2 + 2 + 1 + 1 + 2 + 1 = 12 errors,
and the warning-only test case gets 2 warnings. -/
theorem C20_at_most_twelve_errors_two_warnings :
    (∀ (caseTable : Char → Char) (m : Manifest),
      (ValidateManifest caseTable m).Errors.length ≤ 12 ∧
      (ValidateManifest caseTable m).Warnings.length ≤ 2) ∧
    (∃ m : Manifest, ∀ caseTable : Char → Char,
      (ValidateManifest caseTable m).Errors.length = 12 ∧
      (validateID caseTable m ⟨[], []⟩).Errors.length = 3 ∧
      (validateName caseTable m ⟨[], []⟩).Errors.length = 2 ∧
      (validateDescription caseTable m ⟨[], []⟩).Errors.length = 2 ∧
      (validateAuthor m ⟨[], []⟩).Errors.length = 1 ∧
      (validateVersion m ⟨[], []⟩).Errors.length = 1 ∧
      (validateURLs m ⟨[], []⟩).Errors.length = 2 ∧
      (validateMinAppVersion m ⟨[], []⟩).Errors.length = 1) ∧
    (∃ m : Manifest, ∀ caseTable : Char → Char,
      (ValidateManifest caseTable m).Warnings.length = 2) := by
  refine ⟨fun caseTable m => ⟨?_, ?_⟩, ?_, ?_⟩
  · obtain ⟨h1, h2, h3, h4, h5, h6, h7⟩ := validators_errors_length_le caseTable m
    rw [ValidateManifest_errors]
    simp only [List.length_append]
    omega
  · rw [ValidateManifest_warnings_eq]
    split_ifs <;> simp
  · refine ⟨{ ID := "Obsidian Plugin", Name := "Obsidian Plugin",
              Description := String.mk ("obsidian".data ++ List.replicate 250 'a'),
              Author := "", Version := "v1", MinAppVersion := "v1", IsDesktopOnly := false,
              AuthorURL := "https://obsidian.md",
              FundingURL := "https://obsidian.md/pricing" }, fun caseTable => ?_⟩
    rw [ValidateManifest_of_isASCII caseTable id _ (by decide) (by decide) (by decide),
      validateID_of_isASCII caseTable id _ _ (by decide),
      validateName_of_isASCII caseTable id _ _ (by decide),
      validateDescription_of_isASCII caseTable id _ _ (by decide)]
    decide
  · refine ⟨getWarningOnlyTestCase.manifest, fun caseTable => ?_⟩
    rw [ValidateManifest_of_isASCII caseTable id _ (by decide) (by decide) (by decide)]
    decide

/-! ## The email pattern -/

namespace regexp

theorem Regex.matches_cat_iff (a b : Regex) (s : List Char) :
    (Regex.cat a b).Matches s ↔ ∃ x y, s = x ++ y ∧ a.Matches x ∧ b.Matches y := by
  constructor
  · intro h
    cases h with
    | cat hx hy => exact ⟨_, _, rfl, hx, hy⟩
  · rintro ⟨x, y, rfl, hx, hy⟩
    exact .cat hx hy

theorem Regex.matches_lit_iff (c : Char) (s : List Char) :
    (Regex.lit c).Matches s ↔ s = [c] := by
  constructor
  · intro h
    cases h with
    | cls hd =>
      simp only [inClass, List.any_cons, List.any_nil, Bool.or_false, decide_eq_true_eq] at hd
      rw [Char.ext (UInt32.ext (Nat.le_antisymm hd.2 hd.1))]
  · rintro rfl
    refine .cls ?_
    simp only [inClass, List.any_cons, List.any_nil, Bool.or_false, decide_eq_true_eq]
    exact ⟨Nat.le_refl _, Nat.le_refl _⟩

theorem Regex.matches_plus_cls_iff (rs : List (Char × Char)) (s : List Char) :
    (Regex.plus (.cls rs)).Matches s ↔ s ≠ [] ∧ ∀ c ∈ s, inClass rs c = true := by
  rw [← Regex.fullMatch_iff, fullMatch_plus_cls]

end regexp

/-- The pattern `^[a-zA-Z0-9_.+-]+@[a-zA-Z0-9-]+\.[a-zA-Z0-9-.]+$` matches the
texts `local@domain.tld` whose three parts are non-empty runs of the three
classes. -/
theorem emailRegex_match_iff (s : String) :
    regexp.MatchString emailRegex s = true ↔
      ∃ l d t : List Char, s.data = l ++ '@' :: (d ++ '.' :: t) ∧
        (l ≠ [] ∧ ∀ c ∈ l, ('a' ≤ c ∧ c ≤ 'z') ∨ ('A' ≤ c ∧ c ≤ 'Z') ∨ ('0' ≤ c ∧ c ≤ '9') ∨
          c = '_' ∨ c = '.' ∨ c = '+' ∨ c = '-') ∧
        (d ≠ [] ∧ ∀ c ∈ d, ('a' ≤ c ∧ c ≤ 'z') ∨ ('A' ≤ c ∧ c ≤ 'Z') ∨ ('0' ≤ c ∧ c ≤ '9') ∨
          c = '-') ∧
        (t ≠ [] ∧ ∀ c ∈ t, ('a' ≤ c ∧ c ≤ 'z') ∨ ('A' ≤ c ∧ c ≤ 'Z') ∨ ('0' ≤ c ∧ c ≤ '9') ∨
          c = '-' ∨ c = '.') := by
  have hl : ∀ c : Char, regexp.inClass [('a', 'z'), ('A', 'Z'), ('0', '9'), ('_', '_'),
      ('.', '.'), ('+', '+'), ('-', '-')] c = true ↔
      (('a' ≤ c ∧ c ≤ 'z') ∨ ('A' ≤ c ∧ c ≤ 'Z') ∨ ('0' ≤ c ∧ c ≤ '9') ∨
          c = '_' ∨ c = '.' ∨ c = '+' ∨ c = '-') := by
    intro c
    simp only [regexp.inClass, List.any_cons, List.any_nil, Bool.or_false, Bool.or_eq_true,
      decide_eq_true_eq, char_range_self_iff]
    exact Iff.rfl
  have hd : ∀ c : Char, regexp.inClass [('a', 'z'), ('A', 'Z'), ('0', '9'), ('-', '-')] c =
      true ↔ (('a' ≤ c ∧ c ≤ 'z') ∨ ('A' ≤ c ∧ c ≤ 'Z') ∨ ('0' ≤ c ∧ c ≤ '9') ∨ c = '-') := by
    intro c
    simp only [regexp.inClass, List.any_cons, List.any_nil, Bool.or_false, Bool.or_eq_true,
      decide_eq_true_eq, char_range_self_iff]
    exact Iff.rfl
  have ht : ∀ c : Char, regexp.inClass [('a', 'z'), ('A', 'Z'), ('0', '9'), ('-', '-'),
      ('.', '.')] c = true ↔
      (('a' ≤ c ∧ c ≤ 'z') ∨ ('A' ≤ c ∧ c ≤ 'Z') ∨ ('0' ≤ c ∧ c ≤ '9') ∨ c = '-' ∨ c = '.') := by
    intro c
    simp only [regexp.inClass, List.any_cons, List.any_nil, Bool.or_false, Bool.or_eq_true,
      decide_eq_true_eq, char_range_self_iff]
    exact Iff.rfl
  unfold regexp.MatchString emailRegex
  rw [regexp.Regex.fullMatch_iff]
  simp only [regexp.Regex.matches_cat_iff, regexp.Regex.matches_lit_iff,
    regexp.Regex.matches_plus_cls_iff, hl, hd, ht]
  constructor
  · rintro ⟨l, _, hs, hlc, _, _, rfl, rfl, d, _, rfl, hdc, _, t, rfl, rfl, htc⟩
    exact ⟨l, d, t, by simpa using hs, hlc, hdc, htc⟩
  · rintro ⟨l, d, t, hs, hlc, hdc, htc⟩
    exact ⟨l, _, hs, hlc, ['@'], _, rfl, rfl, d, _, rfl, hdc, ['.'], t, rfl, rfl, htc⟩

/-- A text the email pattern matches has no space, no angle bracket and exactly
one `@`. -/
theorem emailRegex_match_excludes (s : String) (h : regexp.MatchString emailRegex s = true) :
    ' ' ∉ s.data ∧ '<' ∉ s.data ∧ '>' ∉ s.data ∧ s.data.count '@' = 1 := by
  obtain ⟨l, d, t, hs, ⟨_, hl⟩, ⟨_, hd⟩, ⟨_, ht⟩⟩ := (emailRegex_match_iff s).mp h
  have key : ∀ c : Char, c ∈ s.data → (c ∈ l ∨ c ∈ d ∨ c ∈ t) ∨ c = '@' ∨ c = '.' := by
    intro c hc
    rw [hs] at hc
    simp only [List.mem_append, List.mem_cons] at hc
    tauto
  have nl : ∀ c : Char, (c = ' ' ∨ c = '<' ∨ c = '>' ∨ c = '@') → c ∉ l := by
    intro c hc hm
    have := hl c hm
    rcases hc with rfl | rfl | rfl | rfl <;> revert this <;> decide
  have nd : ∀ c : Char, (c = ' ' ∨ c = '<' ∨ c = '>' ∨ c = '@') → c ∉ d := by
    intro c hc hm
    have := hd c hm
    rcases hc with rfl | rfl | rfl | rfl <;> revert this <;> decide
  have nt : ∀ c : Char, (c = ' ' ∨ c = '<' ∨ c = '>' ∨ c = '@') → c ∉ t := by
    intro c hc hm
    have := ht c hm
    rcases hc with rfl | rfl | rfl | rfl <;> revert this <;> decide
  refine ⟨fun hc => ?_, fun hc => ?_, fun hc => ?_, ?_⟩
  · rcases key _ hc with (h1 | h1 | h1) | h1 | h1
    · exact nl _ (.inl rfl) h1
    · exact nd _ (.inl rfl) h1
    · exact nt _ (.inl rfl) h1
    · exact absurd h1 (by decide)
    · exact absurd h1 (by decide)
  · rcases key _ hc with (h1 | h1 | h1) | h1 | h1
    · exact nl _ (.inr (.inl rfl)) h1
    · exact nd _ (.inr (.inl rfl)) h1
    · exact nt _ (.inr (.inl rfl)) h1
    · exact absurd h1 (by decide)
    · exact absurd h1 (by decide)
  · rcases key _ hc with (h1 | h1 | h1) | h1 | h1
    · exact nl _ (.inr (.inr (.inl rfl))) h1
    · exact nd _ (.inr (.inr (.inl rfl))) h1
    · exact nt _ (.inr (.inr (.inl rfl))) h1
    · exact absurd h1 (by decide)
    · exact absurd h1 (by decide)
  · rw [hs, List.count_append, List.count_cons, List.count_append, List.count_cons,
      List.count_eq_zero.mpr (nl _ (.inr (.inr (.inr rfl)))),
      List.count_eq_zero.mpr (nd _ (.inr (.inr (.inr rfl)))),
      List.count_eq_zero.mpr (nt _ (.inr (.inr (.inr rfl))))]
    decide

/-- C19: for a non-empty author, `validateAuthor` adds no error, and it adds the
email warning exactly when the whole author is `local@domain.tld` with `local` a
non-empty run of `[a-zA-Z0-9_.+-]`, `domain` a non-empty run of `[a-zA-Z0-9-]`
and `tld` a non-empty run of `[a-zA-Z0-9-.]`.  An author with a space, an angle
bracket, or a number of `@` other than one gets no warning; so
"Jane Doe <jane@example.com>" gets none. -/
theorem C19_email_warning_whole_author (m : Manifest) (r : ValidationResult)
    (h : m.Author ≠ "") :
    (validateAuthor m r).Errors = r.Errors ∧
    ((validateAuthor m r).Warnings =
        r.Warnings ++ ["Email addresses are discouraged in the author field"] ∨
      (validateAuthor m r).Warnings = r.Warnings) ∧
    ((validateAuthor m r).Warnings =
        r.Warnings ++ ["Email addresses are discouraged in the author field"] ↔
      ∃ l d t : List Char, m.Author.data = l ++ '@' :: (d ++ '.' :: t) ∧
        (l ≠ [] ∧ ∀ c ∈ l, ('a' ≤ c ∧ c ≤ 'z') ∨ ('A' ≤ c ∧ c ≤ 'Z') ∨ ('0' ≤ c ∧ c ≤ '9') ∨
          c = '_' ∨ c = '.' ∨ c = '+' ∨ c = '-') ∧
        (d ≠ [] ∧ ∀ c ∈ d, ('a' ≤ c ∧ c ≤ 'z') ∨ ('A' ≤ c ∧ c ≤ 'Z') ∨ ('0' ≤ c ∧ c ≤ '9') ∨
          c = '-') ∧
        (t ≠ [] ∧ ∀ c ∈ t, ('a' ≤ c ∧ c ≤ 'z') ∨ ('A' ≤ c ∧ c ≤ 'Z') ∨ ('0' ≤ c ∧ c ≤ '9') ∨
          c = '-' ∨ c = '.')) ∧
    ((' ' ∈ m.Author.data ∨ '<' ∈ m.Author.data ∨ '>' ∈ m.Author.data ∨
        m.Author.data.count '@' ≠ 1) →
      (validateAuthor m r).Warnings = r.Warnings) ∧
    validateAuthor { m with Author := "Jane Doe <jane@example.com>" } r = r := by
  have herr : (validateAuthor m r).Errors = r.Errors := by
    rw [validateAuthor_frame, validateAuthor_errors]
    simp only [h, if_false, List.append_nil]
  have hyes : regexp.MatchString emailRegex m.Author = true →
      (validateAuthor m r).Warnings =
        r.Warnings ++ ["Email addresses are discouraged in the author field"] := by
    intro hm
    rw [validateAuthor_frame, validateAuthor_warnings]
    simp only [h, if_false, hm, if_true]
  have hno : ¬ regexp.MatchString emailRegex m.Author = true →
      (validateAuthor m r).Warnings = r.Warnings := by
    intro hm
    rw [validateAuthor_frame, validateAuthor_warnings]
    simp only [h, if_false, hm, Bool.false_eq_true, List.append_nil]
  refine ⟨herr, ?_, ?_, ?_, ?_⟩
  · by_cases hm : regexp.MatchString emailRegex m.Author = true
    · exact .inl (hyes hm)
    · exact .inr (hno hm)
  · rw [← emailRegex_match_iff]
    constructor
    · intro hw
      by_contra hm
      rw [hno hm] at hw
      have := congrArg List.length hw
      simp only [List.length_append, List.length_singleton] at this
      omega
    · exact hyes
  · intro hx
    apply hno
    intro hm
    obtain ⟨h1, h2, h3, h4⟩ := emailRegex_match_excludes m.Author hm
    rcases hx with hx | hx | hx | hx
    · exact h1 hx
    · exact h2 hx
    · exact h3 hx
    · exact hx h4
  · rfl

/-- C19 at the author of the warning-only test case, "contact@example.com",
which gets the warning, and at "Jane Doe <jane@example.com>", which has a
space and gets none. -/
theorem C19_email_warning_whole_author_witness :
    getWarningOnlyTestCase.manifest.Author ≠ "" ∧
    (validateAuthor getWarningOnlyTestCase.manifest ⟨[], []⟩).Warnings =
      ["Email addresses are discouraged in the author field"] ∧
    (validateAuthor
      { getWarningOnlyTestCase.manifest with Author := "Jane Doe <jane@example.com>" }
      ⟨[], []⟩).Warnings = [] :=
  ⟨by decide,
    (C19_email_warning_whole_author getWarningOnlyTestCase.manifest ⟨[], []⟩
      (by decide)).2.2.1.mpr
      ⟨"contact".data, "example".data, "com".data, rfl, by decide, by decide, by decide⟩,
    (C19_email_warning_whole_author
      { getWarningOnlyTestCase.manifest with Author := "Jane Doe <jane@example.com>" } ⟨[], []⟩
      (by decide)).2.2.2.1 (.inl (by decide))⟩

/-! ## The legacy validator against the current one -/

theorem legacy.ite_addError (c : Prop) [Decidable c] (r : ValidationResult) (format : String)
    (args : List Nat) :
    (if c then legacy.addError r format args else r) =
      ⟨r.Errors ++ (if c then [fmt.Sprintf format args] else []), r.Warnings⟩ := by
  unfold legacy.addError
  split_ifs <;> simp

theorem legacy.ite_addWarning (c : Prop) [Decidable c] (r : ValidationResult) (format : String)
    (args : List Nat) :
    (if c then legacy.addWarning r format args else r) =
      ⟨r.Errors, r.Warnings ++ (if c then [fmt.Sprintf format args] else [])⟩ := by
  unfold legacy.addWarning
  split_ifs <;> simp

/-- The errors of the legacy validator, check by check. -/
theorem legacy.validateManifest_errors (caseTable : Char → Char) (m : Manifest) :
    (legacy.validateManifest caseTable m).Errors =
      (if strings.Contains (strings.ToLower caseTable m.ID) "obsidian" = true then
          ["Plugin ID should not contain the word 'obsidian'"] else []) ++
      (if strings.HasSuffix (strings.ToLower caseTable m.ID) "plugin" = true then
          ["Plugin ID should not end with 'plugin'"] else []) ++
      (if regexp.MatchString idRegex m.ID = true then []
        else ["Plugin ID must contain only lowercase alphanumeric characters and dashes"]) ++
      (if strings.Contains (strings.ToLower caseTable m.Name) "obsidian" = true then
          ["Plugin name should not contain the word 'Obsidian'"] else []) ++
      (if strings.HasSuffix (strings.ToLower caseTable m.Name) "plugin" = true then
          ["Plugin name should not end with 'Plugin'"] else []) ++
      (if strings.Contains (strings.ToLower caseTable m.Description) "obsidian" = true then
          ["Description should not contain the word 'Obsidian'"] else []) ++
      (if m.Description.utf8ByteSize > 250 then
          [fmt.Sprintf "Description should be under %d characters (currently %d)"
            [250, m.Description.utf8ByteSize]] else []) ++
      (if regexp.MatchString versionRegex m.Version = true then []
        else ["Invalid version number format (should only contain numbers and dots)"]) ++
      (if m.AuthorURL = "https://obsidian.md" then
          ["Author URL should not point to Obsidian website"] else []) ++
      (if m.FundingURL = "https://obsidian.md/pricing" then
          ["Funding URL should not point to Obsidian pricing"] else []) ++
      (if m.MinAppVersion = "" then ["MinAppVersion is required"]
        else if regexp.MatchString versionRegex m.MinAppVersion = true then []
        else ["Invalid minAppVersion format (should only contain numbers and dots)"]) := by
  have hfmt : fmt.Sprintf "Description should be under 250 characters (currently %d)"
      [m.Description.utf8ByteSize] =
      fmt.Sprintf "Description should be under %d characters (currently %d)"
        [250, m.Description.utf8ByteSize] := rfl
  have e1 : fmt.Sprintf "Plugin ID should not contain the word 'obsidian'" [] =
      "Plugin ID should not contain the word 'obsidian'" := by decide
  have e2 : fmt.Sprintf "Plugin ID should not end with 'plugin'" [] =
      "Plugin ID should not end with 'plugin'" := by decide
  have e3 : fmt.Sprintf "Plugin ID must contain only lowercase alphanumeric characters and dashes" [] =
      "Plugin ID must contain only lowercase alphanumeric characters and dashes" := by decide
  have e4 : fmt.Sprintf "Plugin name should not contain the word 'Obsidian'" [] =
      "Plugin name should not contain the word 'Obsidian'" := by decide
  have e5 : fmt.Sprintf "Plugin name should not end with 'Plugin'" [] =
      "Plugin name should not end with 'Plugin'" := by decide
  have e6 : fmt.Sprintf "Description should not contain the word 'Obsidian'" [] =
      "Description should not contain the word 'Obsidian'" := by decide
  have e7 : fmt.Sprintf "Invalid version number format (should only contain numbers and dots)" [] =
      "Invalid version number format (should only contain numbers and dots)" := by decide
  have e8 : fmt.Sprintf "Author URL should not point to Obsidian website" [] =
      "Author URL should not point to Obsidian website" := by decide
  have e9 : fmt.Sprintf "Funding URL should not point to Obsidian pricing" [] =
      "Funding URL should not point to Obsidian pricing" := by decide
  have e10 : fmt.Sprintf "MinAppVersion is required" [] =
      "MinAppVersion is required" := by decide
  have e11 : fmt.Sprintf "Invalid minAppVersion format (should only contain numbers and dots)" [] =
      "Invalid minAppVersion format (should only contain numbers and dots)" := by decide
  have hb : ∀ (b : Bool) (x y : List String),
      (if b = false then x else y) = if b = true then y else x := by
    intro b x y
    cases b <;> rfl
  simp only [legacy.validateManifest, legacy.ite_addError, legacy.ite_addWarning, hfmt]
  by_cases h1 : m.MinAppVersion = ""
  · by_cases h2 : m.FundingURL = ""
    · simp [h1, h2, legacy.addError, e1, e2, e3, e4, e5, e6, e7, e8, e9, e10, e11, hb]
    · simp [h1, h2, legacy.addError, e1, e2, e3, e4, e5, e6, e7, e8, e9, e10, e11, hb]
  · by_cases h2 : m.FundingURL = ""
    · simp [h1, h2, legacy.addError, e1, e2, e3, e4, e5, e6, e7, e8, e9, e10, e11, hb]
    · simp [h1, h2, legacy.addError, e1, e2, e3, e4, e5, e6, e7, e8, e9, e10, e11, hb]

/-- The warnings of the legacy validator. -/
theorem legacy.validateManifest_warnings (caseTable : Char → Char) (m : Manifest) :
    (legacy.validateManifest caseTable m).Warnings =
      (if strings.Contains (strings.ToLower caseTable m.Description) "this plugin" = true then
          ["Avoid phrases like 'this plugin' in the description"] else []) ++
      (if regexp.MatchString emailRegex m.Author = true then
          ["Email addresses are discouraged in the author field"] else []) := by
  have e1 : fmt.Sprintf "Avoid phrases like 'this plugin' in the description" [] =
      "Avoid phrases like 'this plugin' in the description" := by decide
  have e2 : fmt.Sprintf "Email addresses are discouraged in the author field" [] =
      "Email addresses are discouraged in the author field" := by decide
  simp only [legacy.validateManifest, legacy.ite_addError, legacy.ite_addWarning]
  by_cases h1 : m.MinAppVersion = ""
  · by_cases h2 : m.FundingURL = ""
    · simp [h1, h2, legacy.addError, e1, e2]
    · simp [h1, h2, legacy.addError, e1, e2]
  · by_cases h2 : m.FundingURL = ""
    · simp [h1, h2, legacy.addError, e1, e2]
    · simp [h1, h2, legacy.addError, e1, e2]

/-- The errors of the current validator when the five fields the legacy one does
not test for emptiness are non-empty. -/
theorem ValidateManifest_errors_of_nonempty (caseTable : Char → Char) (m : Manifest)
    (hid : m.ID ≠ "") (hname : m.Name ≠ "") (hdesc : m.Description ≠ "")
    (hauthor : m.Author ≠ "") (hversion : m.Version ≠ "") :
    (ValidateManifest caseTable m).Errors =
      (if strings.Contains (strings.ToLower caseTable m.ID) "obsidian" = true then
          ["Plugin ID should not contain the word 'obsidian'"] else []) ++
      (if strings.HasSuffix (strings.ToLower caseTable m.ID) "plugin" = true then
          ["Plugin ID should not end with 'plugin'"] else []) ++
      (if regexp.MatchString idRegex m.ID = true then []
        else ["Plugin ID must contain only lowercase alphanumeric characters, dashes, and underscores"]) ++
      (if strings.Contains (strings.ToLower caseTable m.Name) "obsidian" = true then
          ["Plugin name should not contain the word 'Obsidian'"] else []) ++
      (if strings.HasSuffix (strings.ToLower caseTable m.Name) "plugin" = true then
          ["Plugin name should not end with 'Plugin'"] else []) ++
      (if strings.Contains (strings.ToLower caseTable m.Description) "obsidian" = true then
          ["Description should not contain the word 'Obsidian'"] else []) ++
      (if m.Description.utf8ByteSize > 250 then
          [fmt.Sprintf "Description should be under %d characters (currently %d)"
            [250, m.Description.utf8ByteSize]] else []) ++
      (if regexp.MatchString versionRegex m.Version = true then []
        else ["Invalid version number format (should only contain numbers and dots)"]) ++
      (if m.AuthorURL = "https://obsidian.md" then
          ["Author URL should not point to Obsidian website"] else []) ++
      (if m.FundingURL = "https://obsidian.md/pricing" then
          ["Funding URL should not point to Obsidian pricing"] else []) ++
      (if m.MinAppVersion = "" then ["MinAppVersion is required"]
        else if regexp.MatchString versionRegex m.MinAppVersion = true then []
        else ["Invalid minAppVersion format (should only contain numbers and dots)"]) := by
  rw [ValidateManifest_errors, validateID_errors, validateName_errors,
    validateDescription_errors, validateAuthor_errors, validateVersion_errors,
    validateURLs_errors, validateMinAppVersion_errors]
  simp only [hid, hname, hdesc, hauthor, hversion, if_false, List.append_nil,
    List.append_assoc]

theorem legacy.validateManifest_of_isASCII (caseTable caseTable' : Char → Char) (m : Manifest)
    (hid : strings.isASCII m.ID = true) (hname : strings.isASCII m.Name = true)
    (hdesc : strings.isASCII m.Description = true) :
    legacy.validateManifest caseTable m = legacy.validateManifest caseTable' m := by
  simp only [legacy.validateManifest,
    strings.ToLower_of_isASCII caseTable caseTable' m.ID hid,
    strings.ToLower_of_isASCII caseTable caseTable' m.Name hname,
    strings.ToLower_of_isASCII caseTable caseTable' m.Description hdesc]

/-- C18: the legacy validator and the current one differ only in the
empty-field checks and in the text of one message.  When ID, name, description,
author and version are non-empty, they return the same warnings and the same
number of errors, and the same errors when every character of the ID is in
`a-z`, `0-9`, `-`, `_`.  So a record the current validator accepts is accepted
by the legacy one; the valid test case with its name emptied is accepted by the
legacy validator and rejected by the current one. -/
theorem C18_legacy_differs_in_empty_checks (caseTable : Char → Char) (m : Manifest) :
    (m.ID ≠ "" → m.Name ≠ "" → m.Description ≠ "" → m.Author ≠ "" → m.Version ≠ "" →
      (legacy.validateManifest caseTable m).Warnings = (ValidateManifest caseTable m).Warnings ∧
      (legacy.validateManifest caseTable m).Errors.length =
        (ValidateManifest caseTable m).Errors.length ∧
      ((∀ c ∈ m.ID.data, ('a' ≤ c ∧ c ≤ 'z') ∨ ('0' ≤ c ∧ c ≤ '9') ∨ c = '-' ∨ c = '_') →
        (legacy.validateManifest caseTable m).Errors = (ValidateManifest caseTable m).Errors)) ∧
    ((ValidateManifest caseTable m).IsValid = true →
      legacy.isValid (legacy.validateManifest caseTable m) = true) ∧
    (legacy.isValid
        (legacy.validateManifest caseTable { getValidManifestTestCase.manifest with Name := "" }) =
      true ∧
      (ValidateManifest caseTable
        { getValidManifestTestCase.manifest with Name := "" }).IsValid = false) := by
  have same : m.ID ≠ "" → m.Name ≠ "" → m.Description ≠ "" → m.Author ≠ "" → m.Version ≠ "" →
      (∀ c ∈ m.ID.data, ('a' ≤ c ∧ c ≤ 'z') ∨ ('0' ≤ c ∧ c ≤ '9') ∨ c = '-' ∨ c = '_') →
      (legacy.validateManifest caseTable m).Errors = (ValidateManifest caseTable m).Errors := by
    intro hid hname hdesc hauthor hversion hcls
    have hm : regexp.MatchString idRegex m.ID = true := (idRegex_match_iff m.ID).mpr ⟨hid, hcls⟩
    rw [legacy.validateManifest_errors,
      ValidateManifest_errors_of_nonempty caseTable m hid hname hdesc hauthor hversion]
    simp only [hm, if_true]
  refine ⟨fun hid hname hdesc hauthor hversion => ⟨?_, ?_, same hid hname hdesc hauthor hversion⟩,
    ?_, ?_, ?_⟩
  · rw [legacy.validateManifest_warnings, ValidateManifest_warnings_eq]
  · rw [legacy.validateManifest_errors,
      ValidateManifest_errors_of_nonempty caseTable m hid hname hdesc hauthor hversion]
    simp only [List.length_append]
    by_cases hm : regexp.MatchString idRegex m.ID = true
    · simp only [hm, if_true]
    · simp only [hm, Bool.false_eq_true, if_false, List.length_singleton]
  · intro hvalid
    have herr : (ValidateManifest caseTable m).Errors = [] := by
      simpa only [ValidationResult.IsValid, beq_iff_eq, List.length_eq_zero] using hvalid
    have hparts := herr
    rw [ValidateManifest_errors] at hparts
    simp only [List.append_eq_nil, validateID_errors_nil, validateName_errors_nil,
      validateDescription_errors_nil, validateAuthor_errors_nil, validateVersion_errors_nil,
      validateURLs_errors_nil, validateMinAppVersion_errors_nil] at hparts
    obtain ⟨⟨⟨⟨⟨⟨hid, hname⟩, hdesc⟩, hauthor⟩, hversion⟩, _⟩, _⟩ := hparts
    have := same hid.1 hname.1 hdesc.1 hauthor hversion.1 hid.2.1
    simp only [legacy.isValid, this, herr, List.length_nil, beq_self_eq_true]
  · rw [legacy.validateManifest_of_isASCII caseTable id _ (by decide) (by decide) (by decide)]
    decide
  · rw [ValidateManifest_of_isASCII caseTable id _ (by decide) (by decide) (by decide)]
    decide

/-- C18 at the invalid test case, whose ID passes the character-class check:
the two validators return the same nine errors and two warnings. -/
theorem C18_legacy_differs_in_empty_checks_witness :
    (getInvalidManifestTestCase.manifest.ID ≠ "" ∧
      getInvalidManifestTestCase.manifest.Name ≠ "" ∧
      getInvalidManifestTestCase.manifest.Description ≠ "" ∧
      getInvalidManifestTestCase.manifest.Author ≠ "" ∧
      getInvalidManifestTestCase.manifest.Version ≠ "") ∧
    (legacy.validateManifest id getInvalidManifestTestCase.manifest).Warnings =
      (ValidateManifest id getInvalidManifestTestCase.manifest).Warnings ∧
    (legacy.validateManifest id getInvalidManifestTestCase.manifest).Errors.length =
      (ValidateManifest id getInvalidManifestTestCase.manifest).Errors.length ∧
    (legacy.validateManifest id getInvalidManifestTestCase.manifest).Errors =
      (ValidateManifest id getInvalidManifestTestCase.manifest).Errors ∧
    (ValidateManifest id getInvalidManifestTestCase.manifest).Errors.length = 9 :=
  have h := (C18_legacy_differs_in_empty_checks id getInvalidManifestTestCase.manifest).1
    (by decide) (by decide) (by decide) (by decide) (by decide)
  ⟨by decide, h.1, h.2.1, h.2.2 (by decide), by decide⟩


/-! ## The text report -/

theorem Fprintf_bullet (writer s : String) :
    fmt.Fprintf writer "  • %s\n" [.str s] = writer ++ "  • " ++ s ++ "\n" := by
  apply String.ext
  simp only [fmt.Fprintf, String.data_append, List.append_assoc]
  rfl

theorem foldl_Fprintf_bullet (l : List String) (writer : String) :
    l.foldl (fun writer s => fmt.Fprintf writer "  • %s\n" [.str s]) writer =
      writer ++ String.join (l.map fun s => "  • " ++ s ++ "\n") := by
  induction l generalizing writer with
  | nil =>
    apply String.ext
    simp only [List.foldl_nil, List.map_nil, String.data_append, String.data_join,
      List.flatten_nil, List.append_nil]
  | cons s l ih =>
    rw [List.foldl_cons, ih, Fprintf_bullet]
    apply String.ext
    simp only [String.data_append, String.data_join, List.map_cons, List.flatten_cons,
      List.append_assoc]

theorem Fprintf_but (writer : String) (n : Nat) :
    fmt.Fprintf writer "   (but has %d warning(s) to consider)\n" [.int n] =
      writer ++ "   (but has " ++ toString n ++ " warning(s) to consider)\n" := by
  apply String.ext
  simp only [fmt.Fprintf, String.data_append, List.append_assoc]
  rfl

theorem Fprintf_failed (writer : String) (e w : Nat) :
    fmt.Fprintf writer "\n❌ Validation failed with %d error(s) and %d warning(s)\n"
        [.int e, .int w] =
      writer ++ "\n❌ Validation failed with " ++ toString e ++ " error(s) and " ++
        toString w ++ " warning(s)\n" := by
  apply String.ext
  simp only [fmt.Fprintf, String.data_append, List.append_assoc]
  rfl

/-- C17: the text report is, after what the writer already holds: the errors
heading and one bulleted line per error, in order, when there is an error; the
warnings heading and one bulleted line per warning, in order, when there is a
warning; then "Manifest validation passed!" when there is no error (followed
by the number of warnings when there is one) and otherwise "Validation failed"
with the numbers of errors and of warnings. -/
theorem C17_text_report_layout (writer : String) (r : ValidationResult) :
    printTextResults writer r =
      writer ++
      (if r.Errors = [] then ""
        else "\n❌ Errors:\n" ++ String.join (r.Errors.map fun e => "  • " ++ e ++ "\n")) ++
      (if r.Warnings = [] then ""
        else "\n⚠️  Warnings:\n" ++ String.join (r.Warnings.map fun w => "  • " ++ w ++ "\n")) ++
      (if r.Errors = [] then
        "\n✅ Manifest validation passed!\n" ++
          (if r.Warnings = [] then ""
            else "   (but has " ++ toString r.Warnings.length ++ " warning(s) to consider)\n")
      else
        "\n❌ Validation failed with " ++ toString r.Errors.length ++ " error(s) and " ++
          toString r.Warnings.length ++ " warning(s)\n") := by
  have hE : r.Errors.length > 0 ↔ r.Errors ≠ [] := List.length_pos
  have hW : r.Warnings.length > 0 ↔ r.Warnings ≠ [] := List.length_pos
  have hV : r.IsValid = true ↔ r.Errors = [] := by
    simp only [ValidationResult.IsValid, beq_iff_eq, List.length_eq_zero]
  simp only [printTextResults, fmt.Fprintln, foldl_Fprintf_bullet, Fprintf_but, Fprintf_failed,
    hE, hW, hV]
  have a1 : ∀ x : String, "\n❌ Errors:" ++ ("\n" ++ x) = "\n❌ Errors:\n" ++ x := by
    intro x
    rw [← String.append_assoc]
    rfl
  have a2 : ∀ x : String, "\n⚠️  Warnings:" ++ ("\n" ++ x) = "\n⚠️  Warnings:\n" ++ x := by
    intro x
    rw [← String.append_assoc]
    rfl
  have a3 : ∀ x : String, "\n✅ Manifest validation passed!" ++ ("\n" ++ x) =
      "\n✅ Manifest validation passed!\n" ++ x := by
    intro x
    rw [← String.append_assoc]
    rfl
  have a4 : "\n✅ Manifest validation passed!" ++ "\n" = "\n✅ Manifest validation passed!\n" :=
    rfl
  by_cases h1 : r.Errors = [] <;> by_cases h2 : r.Warnings = [] <;>
    simp only [h1, h2, ne_eq, not_true_eq_false, not_false_eq_true, if_true, if_false,
      String.append_empty, String.append_assoc, List.length_nil, a1, a2, a3, a4]

/-! ## The JSON report: what is written decodes to what was encoded -/

namespace json

theorem run_append {σ α : Type} (step : σ → α → Option σ) (xs ys : List α) (s : σ) :
    run step s (xs ++ ys) = (run step s xs).bind fun s' => run step s' ys := by
  induction xs generalizing s with
  | nil => rfl
  | cons a xs ih =>
    simp only [List.cons_append, run]
    cases step s a with
    | none => rfl
    | some s' => exact ih s'

theorem run_append_of_eq {σ α : Type} (step : σ → α → Option σ) {xs : List α} {s s' : σ}
    (h : run step s xs = some s') (ys : List α) :
    run step s (xs ++ ys) = run step s' ys := by
  rw [run_append, h]
  rfl

theorem hexVal_hex : ∀ n : Nat, n < 16 → hexVal (hex n) = some n := by decide

theorem scan_escapeRune_ascii (acc : List Char) (toks : List Token) :
    ∀ n : Nat, n < 0x80 →
      run scanStep (.inString acc, toks) (escapeRune (Char.ofNat n)) =
        some (.inString (acc ++ [Char.ofNat n]), toks) := by
  intro n hn
  interval_cases n <;> rfl

/-- Scanning the escaped form of a rune inside a string literal adds that rune to
the literal. -/
theorem scan_escapeRune (acc : List Char) (toks : List Token) (c : Char) :
    run scanStep (.inString acc, toks) (escapeRune c) =
      some (.inString (acc ++ [c]), toks) := by
  by_cases h : c.toNat < 0x80
  · have := scan_escapeRune_ascii acc toks c.toNat h
    rwa [Char.ofNat_toNat] at this
  · by_cases h1 : c = Char.ofNat 0x2028
    · subst h1; rfl
    · by_cases h2 : c = Char.ofNat 0x2029
      · subst h2; rfl
      · have n1 : c ≠ Char.ofNat 0x22 := by
          intro e
          apply h
          rw [e]
          decide
        have n2 : c ≠ Char.ofNat 0x5C := by
          intro e
          apply h
          rw [e]
          decide
        have n3 : ¬ c.toNat < 0x20 := by omega
        simp only [escapeRune, h, h1, h2, or_self, if_false, run, scanStep, n1, n2, n3]

theorem scan_escaped (toks : List Token) :
    ∀ (l acc : List Char),
      run scanStep (.inString acc, toks) (l.flatMap escapeRune) =
        some (.inString (acc ++ l), toks)
  | [], acc => by simp only [List.flatMap_nil, run, List.append_nil]
  | c :: l, acc => by
    rw [List.flatMap_cons, run_append_of_eq scanStep (scan_escapeRune acc toks c),
      scan_escaped toks l (acc ++ [c]), List.append_assoc, List.singleton_append]

/-- Scanning a quoted string between tokens yields that string as one token. -/
theorem scan_quote (toks : List Token) (s : String) :
    run scanStep (.between, toks) (quote s) = some (.between, toks ++ [.str s.data]) := by
  have h0 : run scanStep (.between, toks) [Char.ofNat 0x22] = some (.inString [], toks) := rfl
  have h2 : ∀ acc : List Char, run scanStep (.inString acc, toks) [Char.ofNat 0x22] =
      some (.between, toks ++ [.str acc]) := fun _ => rfl
  unfold quote
  rw [← List.singleton_append, run_append_of_eq scanStep h0,
    run_append_of_eq scanStep (scan_escaped toks s.data []), h2, List.nil_append]

end json

namespace json

theorem scan_elements :
    ∀ (xs : List String) (toks : List Token),
      run scanStep (.between, toks) (xs.flatMap fun y => ",\n    ".data ++ quote y) =
        some (.between, toks ++ xs.flatMap fun y => [.comma, .str y.data])
  | [], toks => by simp only [List.flatMap_nil, run, List.append_nil]
  | x :: xs, toks => by
    have h0 : run scanStep (.between, toks) ",\n    ".data = some (.between, toks ++ [.comma]) :=
      rfl
    rw [List.flatMap_cons, List.append_assoc, run_append_of_eq scanStep h0,
      run_append_of_eq scanStep (scan_quote _ x), scan_elements xs, List.flatMap_cons]
    simp only [List.append_assoc, List.singleton_append, List.cons_append, List.nil_append]

/-- Scanning a rendered value yields its tokens. -/
theorem scan_renderValue (toks : List Token) :
    ∀ v : Value, run scanStep (.between, toks) (renderValue v) =
      some (.between, toks ++ tokensOfValue v)
  | .bool true => rfl
  | .bool false => rfl
  | .strings [] => by
    have h : run scanStep (.between, toks) (renderValue (.strings [])) =
        some (.between, toks ++ [.lbrack] ++ [.rbrack]) := rfl
    rw [h, List.append_assoc]
    rfl
  | .strings (x :: xs) => by
    have h0 : run scanStep (.between, toks) "[\n    ".data = some (.between, toks ++ [.lbrack]) :=
      rfl
    have h1 : ∀ ts : List Token, run scanStep (.between, ts) "\n  ]".data =
        some (.between, ts ++ [.rbrack]) := fun _ => rfl
    simp only [renderValue, tokensOfValue, List.append_assoc]
    rw [run_append_of_eq scanStep h0, run_append_of_eq scanStep (scan_quote _ x),
      run_append_of_eq scanStep (scan_elements xs _), h1]
    simp only [List.append_assoc, List.singleton_append, List.cons_append, List.nil_append]

/-- Scanning a rendered member yields its tokens. -/
theorem scan_renderMember (toks : List Token) (kv : String × Value) :
    run scanStep (.between, toks) (renderMember kv) =
      some (.between, toks ++ tokensOfMember kv) := by
  have h0 : ∀ ts : List Token, run scanStep (.between, ts) ": ".data =
      some (.between, ts ++ [.colon]) := fun _ => rfl
  simp only [renderMember, tokensOfMember, List.append_assoc]
  rw [run_append_of_eq scanStep (scan_quote _ kv.1), run_append_of_eq scanStep (h0 _),
    scan_renderValue]
  simp only [List.append_assoc, List.singleton_append, List.cons_append, List.nil_append]

theorem scan_members :
    ∀ (kvs : List (String × Value)) (toks : List Token),
      run scanStep (.between, toks) (kvs.flatMap fun kv => ",\n  ".data ++ renderMember kv) =
        some (.between, toks ++ kvs.flatMap fun kv => .comma :: tokensOfMember kv)
  | [], toks => by simp only [List.flatMap_nil, run, List.append_nil]
  | kv :: kvs, toks => by
    have h0 : run scanStep (.between, toks) ",\n  ".data = some (.between, toks ++ [.comma]) :=
      rfl
    rw [List.flatMap_cons, List.append_assoc, run_append_of_eq scanStep h0,
      run_append_of_eq scanStep (scan_renderMember _ kv), scan_members kvs, List.flatMap_cons]
    simp only [List.append_assoc, List.singleton_append, List.cons_append, List.nil_append]

/-- Scanning a rendered object, followed by a newline, yields its tokens. -/
theorem scan_renderObject (kvs : List (String × Value)) :
    run scanStep (.between, []) (renderObject kvs ++ "\n".data) =
      some (.between, tokensOfObject kvs) := by
  cases kvs with
  | nil => rfl
  | cons kv kvs =>
    have h0 : run scanStep (.between, []) "\x7b\n  ".data = some (.between, [.lbrace]) := rfl
    have h1 : ∀ ts : List Token, run scanStep (.between, ts) ("\n\x7d".data ++ "\n".data) =
        some (.between, ts ++ [.rbrace]) := fun _ => rfl
    simp only [renderObject, tokensOfObject, List.append_assoc]
    rw [run_append_of_eq scanStep h0, run_append_of_eq scanStep (scan_renderMember _ kv),
      run_append_of_eq scanStep (scan_members kvs _), h1]
    simp only [List.append_assoc, List.singleton_append, List.cons_append, List.nil_append]

end json

namespace json

theorem decode_elements (k : List Char) (o : OutputResult) :
    ∀ (ys xs : List String),
      run decodeStep (.separator k xs, o) (ys.flatMap fun y => [.comma, .str y.data]) =
        some (.separator k (xs ++ ys), o)
  | [], xs => by simp only [List.flatMap_nil, run, List.append_nil]
  | y :: ys, xs => by
    have h0 : run decodeStep (.separator k xs, o) [.comma, .str y.data] =
        some (.separator k (xs ++ [y]), o) := rfl
    rw [List.flatMap_cons, run_append_of_eq decodeStep h0, decode_elements k o ys,
      List.append_assoc, List.singleton_append]

theorem decode_valid (first b : Bool) (o : OutputResult) :
    run decodeStep (.key first, o) (tokensOfMember ("valid", .bool b)) =
      some (.next, { o with Valid := b }) := by
  cases first <;> rfl

theorem decode_errors (first : Bool) (o : OutputResult) (x : String) (xs : List String) :
    run decodeStep (.key first, o) (tokensOfMember ("errors", .strings (x :: xs))) =
      some (.next, { o with Errors := x :: xs }) := by
  have h0 : run decodeStep (.key first, o) [.str "errors".data, .colon, .lbrack, .str x.data] =
      some (.separator "errors".data [x], o) := by
    cases first <;> rfl
  have h1 : ∀ ys : List String, run decodeStep (.separator "errors".data ys, o) [.rbrack] =
      some (.next, { o with Errors := ys }) := fun _ => rfl
  have e : tokensOfMember ("errors", .strings (x :: xs)) =
      [.str "errors".data, .colon, .lbrack, .str x.data] ++
        ((xs.flatMap fun y => [.comma, .str y.data]) ++ [.rbrack]) := by
    simp only [tokensOfMember, tokensOfValue, List.append_assoc, List.cons_append,
      List.nil_append]
  rw [e, run_append_of_eq decodeStep h0,
    run_append_of_eq decodeStep (decode_elements _ o xs [x]), h1, List.singleton_append]

theorem decode_warnings (first : Bool) (o : OutputResult) (x : String) (xs : List String) :
    run decodeStep (.key first, o) (tokensOfMember ("warnings", .strings (x :: xs))) =
      some (.next, { o with Warnings := x :: xs }) := by
  have h0 : run decodeStep (.key first, o)
      [.str "warnings".data, .colon, .lbrack, .str x.data] =
      some (.separator "warnings".data [x], o) := by
    cases first <;> rfl
  have h1 : ∀ ys : List String, run decodeStep (.separator "warnings".data ys, o) [.rbrack] =
      some (.next, { o with Warnings := ys }) := fun _ => rfl
  have e : tokensOfMember ("warnings", .strings (x :: xs)) =
      [.str "warnings".data, .colon, .lbrack, .str x.data] ++
        ((xs.flatMap fun y => [.comma, .str y.data]) ++ [.rbrack]) := by
    simp only [tokensOfMember, tokensOfValue, List.append_assoc, List.cons_append,
      List.nil_append]
  rw [e, run_append_of_eq decodeStep h0,
    run_append_of_eq decodeStep (decode_elements _ o xs [x]), h1, List.singleton_append]

theorem run_cons_of_eq {σ α : Type} (step : σ → α → Option σ) {s s' : σ} {a : α}
    (h : step s a = some s') (ys : List α) : run step s (a :: ys) = run step s' ys := by
  simp only [run, h]

/-- Decoding the tokens of the object of an `OutputResult` gives it back. -/
theorem decode_members (o : OutputResult) :
    run decodeStep (.start, { Valid := false, Errors := [], Warnings := [] })
        (tokensOfObject (members o)) = some (.done, o) := by
  have hs : ∀ o' : OutputResult, decodeStep (.start, o') .lbrace = some (.key true, o') :=
    fun _ => rfl
  have hc : ∀ o' : OutputResult, decodeStep (.next, o') .comma = some (.key false, o') :=
    fun _ => rfl
  have he : ∀ o' : OutputResult, run decodeStep (.next, o') [.rbrace] = some (.done, o') :=
    fun _ => rfl
  obtain ⟨v, es, ws⟩ := o
  cases es with
  | nil =>
    cases ws with
    | nil =>
      simp only [members, List.length_nil, if_true, List.append_nil, tokensOfObject,
        List.flatMap_nil, List.append_assoc, List.singleton_append, List.cons_append,
        List.nil_append]
      rw [run_cons_of_eq decodeStep (hs _), run_append_of_eq decodeStep (decode_valid _ v _),
        he]
    | cons w ws =>
      simp only [members, List.length_nil, if_true, List.append_nil, tokensOfObject,
        List.length_cons, Nat.add_one_ne_zero, if_false, List.singleton_append,
        List.flatMap_cons, List.flatMap_nil, List.append_assoc, List.cons_append,
        List.nil_append]
      rw [run_cons_of_eq decodeStep (hs _), run_append_of_eq decodeStep (decode_valid _ v _),
        run_cons_of_eq decodeStep (hc _),
        run_append_of_eq decodeStep (decode_warnings _ _ w ws), he]
  | cons e es =>
    cases ws with
    | nil =>
      simp only [members, List.length_nil, if_true, List.append_nil, tokensOfObject,
        List.length_cons, Nat.add_one_ne_zero, if_false, List.singleton_append,
        List.flatMap_cons, List.flatMap_nil, List.append_assoc, List.cons_append,
        List.nil_append]
      rw [run_cons_of_eq decodeStep (hs _), run_append_of_eq decodeStep (decode_valid _ v _),
        run_cons_of_eq decodeStep (hc _),
        run_append_of_eq decodeStep (decode_errors _ _ e es), he]
    | cons w ws =>
      simp only [members, tokensOfObject,
        List.length_cons, Nat.add_one_ne_zero, if_false, List.singleton_append,
        List.flatMap_cons, List.flatMap_nil, List.append_assoc, List.cons_append,
        List.nil_append]
      rw [run_cons_of_eq decodeStep (hs _), run_append_of_eq decodeStep (decode_valid _ v _),
        run_cons_of_eq decodeStep (hc _),
        run_append_of_eq decodeStep (decode_errors _ _ e es),
        run_cons_of_eq decodeStep (hc _),
        run_append_of_eq decodeStep (decode_warnings _ _ w ws), he]

end json

/-- Decoding what `MarshalIndent` renders for an `OutputResult`, followed by a
newline, gives that `OutputResult` back. -/
theorem json.Unmarshal_rendered (o : OutputResult) :
    json.Unmarshal (String.mk (json.renderObject (json.members o)) ++ "\n") = some o := by
  have hdata : (String.mk (json.renderObject (json.members o)) ++ "\n").data =
      json.renderObject (json.members o) ++ "\n".data := rfl
  unfold json.Unmarshal
  rw [hdata, json.scan_renderObject]
  simp only [json.decode_members]

/-- C16: the object `printJSONResults` builds has `valid` true exactly when the
result has no error and carries the errors and the warnings as they are, in
order; in the rendered object `errors` and `warnings` are left out when empty;
and decoding what is written gives back that flag and those sequences. -/
theorem C16_json_report_roundtrip (r : ValidationResult) :
    ((printJSONResults.output r).Valid = true ↔ r.Errors = []) ∧
    (printJSONResults.output r).Errors = r.Errors ∧
    (printJSONResults.output r).Warnings = r.Warnings ∧
    json.members (printJSONResults.output r) =
      [("valid", json.Value.bool (printJSONResults.output r).Valid)] ++
      (if r.Errors = [] then [] else [("errors", json.Value.strings r.Errors)]) ++
      (if r.Warnings = [] then [] else [("warnings", json.Value.strings r.Warnings)]) ∧
    printJSONResults "" r =
      String.mk (json.renderObject (json.members (printJSONResults.output r))) ++ "\n" ∧
    json.Unmarshal (printJSONResults "" r) = some (printJSONResults.output r) ∧
    json.Unmarshal (PrintResultsTo "" r JSONOutput) =
      some { Valid := r.IsValid, Errors := r.Errors, Warnings := r.Warnings } := by
  have hprint : printJSONResults "" r =
      String.mk (json.renderObject (json.members (printJSONResults.output r))) ++ "\n" := by
    simp only [printJSONResults, json.MarshalIndent, String.empty_append]
  have hto : PrintResultsTo "" r JSONOutput = printJSONResults "" r := by
    simp only [PrintResultsTo, if_true]
  refine ⟨?_, rfl, rfl, ?_, hprint, ?_, ?_⟩
  · simp only [printJSONResults.output, ValidationResult.IsValid, beq_iff_eq,
      List.length_eq_zero]
  · simp only [json.members, printJSONResults.output, List.length_eq_zero]
  · rw [hprint, json.Unmarshal_rendered]
  · rw [hto, hprint, json.Unmarshal_rendered]
    rfl

/-- C10 as stated fails for case changes that lower-casing does not undo.  The
upper-case form of the dotless `ı` (U+0131) is `I` and that of the long `ſ`
(U+017F) is `S`, while `unicode.ToLower` leaves `ı` and `ſ` as they are (here
the case table is the identity, which agrees with Go's on these two runes).
So "MY PLUGIN" is "my plugın" with only the case of its letters changed, yet
the "ends with plugin" error of the name is raised for "MY PLUGIN" and not for
"my plugın"; and "OBSIDIAN" is "obſidian" with only the case of its letters
changed, yet the "contains obsidian" error of the ID is raised for "OBSIDIAN"
and not for "obſidian". -/
theorem C10_counterexample_case_change_not_undone :
    ("MY PLUGIN" : String).data =
      ("my plugın" : String).data.map (fun c =>
        if 'a' ≤ c ∧ c ≤ 'z' then Char.ofNat (c.toNat - 32)
        else if c = 'ı' then 'I' else if c = 'ſ' then 'S' else c) ∧
    "Plugin name should not end with 'Plugin'" ∈
      (validateName id { getValidManifestTestCase.manifest with Name := "MY PLUGIN" }
        ⟨[], []⟩).Errors ∧
    "Plugin name should not end with 'Plugin'" ∉
      (validateName id { getValidManifestTestCase.manifest with Name := "my plugın" }
        ⟨[], []⟩).Errors ∧
    ("OBSIDIAN" : String).data =
      ("obſidian" : String).data.map (fun c =>
        if 'a' ≤ c ∧ c ≤ 'z' then Char.ofNat (c.toNat - 32)
        else if c = 'ı' then 'I' else if c = 'ſ' then 'S' else c) ∧
    "Plugin ID should not contain the word 'obsidian'" ∈
      (validateID id { getValidManifestTestCase.manifest with ID := "OBSIDIAN" }
        ⟨[], []⟩).Errors ∧
    "Plugin ID should not contain the word 'obsidian'" ∉
      (validateID id { getValidManifestTestCase.manifest with ID := "obſidian" }
        ⟨[], []⟩).Errors := by
  refine ⟨by decide, by decide, by decide, by decide, by decide, by decide⟩
